import Mathlib

/-!
Verification of the MarmaladeHttpUtils asynchronous HTTP engine.

This file gives a shallow embedding, in Lean 4, of the parts of the
MarmaladeHttpUtils sources (HttpClient.cpp, HttpRequest.cpp / .h,
HttpDownloader.h, YoutubeApi.cpp) that the verified properties talk about,
and proves or refutes each property against that embedding.

Modelling conventions:
- C++ strings are modelled as `List Nat` (byte values, 0..255) where byte
  identity matters (URL encoding, response buffers) and as Lean `String`
  where they are only used as opaque keys (header names, file paths, URLs).
- The Marmalade target has unsigned `char` (ARM ABI), so `(int) c` on a
  response byte is the byte value itself, 0..255.
- External collaborators (libcurl, the CAJUN structured-value library, the
  s3e filesystem) are modelled at their interface boundary: libcurl's
  callback contract, an abstract JSON parse function, and an explicit
  filesystem state with an oracle for paths that fail to open.
- `IwAssert` guarded operations are modelled as `Option`-returning
  functions (`none` = assertion fault) where the legality of a call is the
  point of a property, and as total functions with the guard established by
  the caller where the surrounding code checks the condition anyway.
-/

namespace HttpUtils

/-! ## Byte and hex helpers -/

/-- ASCII `isalnum` as used by the C locale: decimal digits, uppercase and
lowercase letters. -/
def isalnum (c : Nat) : Bool :=
  (decide (48 ≤ c) && decide (c ≤ 57)) ||
  (decide (65 ≤ c) && decide (c ≤ 90)) ||
  (decide (97 ≤ c) && decide (c ≤ 122))

/-- Lowercase hexadecimal digit, as produced by `std::hex` on an ostream
with the default (no uppercase) flags. -/
def hexDigitChar (n : Nat) : Char :=
  if n < 10 then Char.ofNat (48 + n) else Char.ofNat (87 + n)

/-- Two-digit zero-filled hex rendering of a byte, matching
`escaped << '%' << std::setw(2) << value` on a stream with `fill('0')` and
`std::hex` for values 0..255. -/
def hexByte (n : Nat) : List Char :=
  [hexDigitChar (n / 16 % 16), hexDigitChar (n % 16)]

/-! ## HttpRequest::UrlEncode (HttpRequest.cpp lines 18-37) -/

/-- Per-character step of `HttpRequest::UrlEncode`, translated branch by
branch from the loop body in HttpRequest.cpp:
alnum passes; `- _ .` passes only when `!strict`; space becomes `+` only
when `!strict`; every other byte becomes `%` plus its hex rendering. -/
def urlEncodeChar (strict : Bool) (c : Nat) : List Char :=
  if isalnum c then [Char.ofNat c]
  else if (c == 45 || c == 95 || c == 46) && !strict then [Char.ofNat c]
  else if c == 32 && !strict then ['+']
  else '%' :: hexByte c

/-- `HttpRequest::UrlEncode(value, strict)`: the loop over the input bytes,
appending each character's encoding to the output stream. -/
def UrlEncode (value : List Nat) (strict : Bool) : List Char :=
  (value.map (urlEncodeChar strict)).flatten

/-- Uppercase hexadecimal digit (used only to state what claim C4 asks
for, which the code does not do). -/
def upperHexDigit (n : Nat) : Char :=
  if n < 10 then Char.ofNat (48 + n) else Char.ofNat (55 + n)

/-- The per-character encoding rule exactly as claim C4 states it:
alphanumerics and `- _ .` pass through unescaped in BOTH modes, space
becomes `+` only in the lenient mode, and every other byte becomes `%`
followed by two UPPERCASE hex digits. This definition follows the claim's
words, to be compared with `urlEncodeChar`, which follows the code. -/
def urlEncodeClaimChar (strict : Bool) (c : Nat) : List Char :=
  if isalnum c then [Char.ofNat c]
  else if c == 45 || c == 95 || c == 46 then [Char.ofNat c]
  else if c == 32 && !strict then ['+']
  else ['%', upperHexDigit (c / 16 % 16), upperHexDigit (c % 16)]

/-- String-level form of claim C4's encoding rule. -/
def urlEncodeClaim (value : List Nat) (strict : Bool) : List Char :=
  (value.map (urlEncodeClaimChar strict)).flatten

/-- The per-character encoding rule as amended to match the code:
alphanumerics pass in both modes; `- _ .` pass only in the lenient mode
and are percent-encoded in strict mode; space becomes `+` only in the
lenient mode; every other byte becomes `%` followed by two zero-padded
LOWERCASE hex digits of the byte value. Stated with `Nat.digitChar`,
independently of the stream model used in `urlEncodeChar`. -/
def urlEncodeAmendedChar (strict : Bool) (c : Nat) : List Char :=
  if isalnum c then [Char.ofNat c]
  else if (c == 45 || c == 95 || c == 46) && !strict then [Char.ofNat c]
  else if c == 32 && !strict then ['+']
  else ['%', Nat.digitChar (c / 16), Nat.digitChar (c % 16)]

/-! ## std::map helpers

C++ `std::map<string,string>` assignment `m[k] = v` replaces the entry for
an existing key and inserts otherwise. The key order of the C++ map is
irrelevant to every property below, so an association list with
replace-or-append update is a faithful model of the observable behaviour. -/

/-- `m[k] = v` on a `std::map`: replace the value of an existing key in
place, otherwise append the new pair. -/
def mapInsert {α : Type} (m : List (String × α)) (k : String) (v : α) : List (String × α) :=
  match m with
  | [] => [(k, v)]
  | (k0, v0) :: rest =>
    if k0 = k then (k, v) :: rest else (k0, v0) :: mapInsert rest k v

/-- `m.count(k) > 0` / `m[k]` read on a `std::map`. -/
def mapLookup {α : Type} (m : List (String × α)) (k : String) : Option α :=
  match m with
  | [] => none
  | (k0, v0) :: rest => if k0 = k then some v0 else mapLookup rest k

/-! ## CAJUN structured values (external collaborator)

The CAJUN library (util/json.h) is a vendored external collaborator; only
its interface matters here: a tagged tree value, a parse operation that can
fail, and a serialize operation. The numeric payload (a C++ double) is
never inspected by any property, so it is represented abstractly. -/

/-- A CAJUN `UnknownElement`: object / array / string / number / boolean /
null, as a tagged variant. Strings carry raw response bytes. -/
inductive JsonValue where
  | null : JsonValue
  | boolean (b : Bool) : JsonValue
  | number (n : Int) : JsonValue
  | str (s : List Nat) : JsonValue
  | array (xs : List JsonValue) : JsonValue
  | object (fields : List (String × JsonValue)) : JsonValue

/-- Interface type of `json::Reader::Read`: parsing a byte string either
yields a structured value or raises a `json::Exception` (modelled as an
error message). The engine treats the parser as an external black box, so
the properties below quantify over this function. -/
abbrev JsonParse : Type := List Nat → Except String JsonValue

/-! ## HttpRequest base class (HttpRequest.h) -/

/-- `HttpRequest::Method`. -/
inductive Method where
  | GET | POST | HEAD | PUT
deriving DecidableEq, Repr

/-- `HttpRequest::Status`. -/
inductive Status where
  | BUILDING | PENDING | SENDING | HEADERS | DONE | ERROR | CANCELLED
deriving DecidableEq, Repr

/-- Coordinator-visible fields of an `HttpRequest`. The progress counters
(`volatile double`, advisory only) take part in no property and are
omitted; everything else HttpClient.cpp touches is here. -/
structure HttpRequest where
  method : Method
  url : String
  status : Status
  requestHeaders : List (String × String)
  responseHeaders : List (String × String)
deriving DecidableEq, Repr

/-- The `HttpRequest(Method, const char*)` constructor: starts in
`BUILDING` with empty header maps. -/
def HttpRequest.init (method : Method) (url : String) : HttpRequest :=
  { method := method, url := url, status := .BUILDING,
    requestHeaders := [], responseHeaders := [] }

/-- `HttpRequest::SetHeader`: `IwAssert(m_status == BUILDING)` then
`m_requestHeaders[header] = value`. The assertion is modelled as `none`. -/
def HttpRequest.SetHeader (r : HttpRequest) (header value : String) : Option HttpRequest :=
  if r.status = .BUILDING then
    some { r with requestHeaders := mapInsert r.requestHeaders header value }
  else none

/-- Base `HttpRequest::CompileRequest`: `IwAssert(m_status == BUILDING)`
then `m_status = PENDING`. -/
def HttpRequest.CompileRequest (r : HttpRequest) : Option HttpRequest :=
  if r.status = .BUILDING then some { r with status := .PENDING } else none

/-- `HttpRequest::Cancel`: only a `PENDING` request moves to `CANCELLED`;
any other status is left untouched. -/
def HttpRequest.Cancel (r : HttpRequest) : HttpRequest :=
  if r.status = .PENDING then { r with status := .CANCELLED } else r

/-- `HttpRequest::HandleRequestStart`: `m_status = SENDING`. The guarding
assertion (`m_status == PENDING`) is established by HttpClient::Update,
which dispatches a request only after checking `GetStatus() == PENDING`. -/
def HttpRequest.HandleRequestStart (r : HttpRequest) : HttpRequest :=
  { r with status := .SENDING }

/-- One link of the worker's response-header scratch list
(`HttpRequest::RH`); the worker prepends, so the head is the most recently
received header line. -/
abbrev RHList : Type := List (String × String)

/-- `HttpRequest::HandleResponseHeaders`: set status `HEADERS` and copy the
worker's scratch list into the response-header map, iterating from the
head (newest header first), each entry written with `m[h] = v`. -/
def HttpRequest.HandleResponseHeaders (r : HttpRequest) (rh : RHList) : HttpRequest :=
  { r with status := .HEADERS,
           responseHeaders := rh.foldl (fun m p => mapInsert m p.1 p.2) r.responseHeaders }

/-- Base `HttpRequest::HandleResponse`:
`m_status = success ? DONE : ERROR`. -/
def HttpRequest.HandleResponse (r : HttpRequest) (success : Bool) : HttpRequest :=
  { r with status := if success then .DONE else .ERROR }

/-! ## Filesystem collaborator (s3eFile + util/iohelpers)

The s3e filesystem is external; it is modelled as a finite map from paths
to byte contents, a set of existing directories, an oracle naming the
paths that fail to open for writing (disk full, bad drive, ...), and an
oracle naming the directories `s3eFileMakeDirectory` fails to create. -/

/-- State of the external filesystem. -/
structure FileSys where
  files : List (String × List Nat)
  dirs : List String
  openFails : String → Bool
  mkdirFails : String → Bool

/-- Look up a file's contents. -/
def FileSys.read (fs : FileSys) (path : String) : Option (List Nat) :=
  match fs.files.find? (fun p => p.1 = path) with
  | some p => some p.2
  | none => none

/-- Whether a file exists at `path`. -/
def FileSys.hasFile (fs : FileSys) (path : String) : Bool :=
  (fs.files.find? (fun p => p.1 = path)).isSome

/-- Write a file's contents, replacing any existing file at that path. -/
def FileSys.write (fs : FileSys) (path : String) (contents : List Nat) : FileSys :=
  { fs with files := (path, contents) :: fs.files.filter (fun p => p.1 ≠ path) }

/-- `s3eFileOpen(path, "w")`: fails when the oracle says so, otherwise
creates/truncates the file. -/
def FileSys.openW (fs : FileSys) (path : String) : Option FileSys :=
  if fs.openFails path then none else some (fs.write path [])

/-- Append bytes to an open file (`s3eFileWrite`). -/
def FileSys.append (fs : FileSys) (path : String) (bytes : List Nat) : FileSys :=
  fs.write path ((fs.read path).getD [] ++ bytes)

/-- `s3eFileRename(src, dst)`: move the contents from `src` to `dst`. -/
def FileSys.rename (fs : FileSys) (src dst : String) : FileSys :=
  match fs.read src with
  | some contents =>
    { fs with files := (dst, contents) ::
        (fs.files.filter (fun p => p.1 ≠ src ∧ p.1 ≠ dst)) }
  | none => fs

/-- `s3eFileDelete(path)`. -/
def FileSys.delete (fs : FileSys) (path : String) : FileSys :=
  { fs with files := fs.files.filter (fun p => p.1 ≠ path) }

/-- The characters before the last `/` of a character list, or `none`
when there is no slash (`path.find_last_of` returning `npos`). -/
def dirNameChars : List Char → Option (List Char)
  | [] => none
  | c :: cs =>
    match dirNameChars cs with
    | some t => some (c :: t)
    | none => if c = '/' then some [] else none

/-- `DirName` (util/iohelpers.h lines 18-24): `path.substr(0, pos)` for
`pos = path.find_last_of` of the slash, or `""` when there is no slash. -/
def DirName (path : String) : String :=
  match dirNameChars path.data with
  | some t => ⟨t⟩
  | none => ""

/-- `IsDir` (util/iohelpers.h). -/
def IsDir (fs : FileSys) (path : String) : Bool :=
  fs.dirs.contains path

/-- The per-component loop of `MakePath` (util/iohelpers.cpp lines
59-73): skip empty components (double slashes, trailing slash), extend
`sub_path` by `part + "/"`, and for each missing directory call
`s3eFileMakeDirectory`, throwing a `runtime_error` (modelled as
`Except.error`) when it fails; directories created before a failing
component stay created. -/
def makePathGo (fs : FileSys) (subPath : String) : List String → Except String FileSys
  | [] => .ok fs
  | part :: rest =>
    if part.length = 0 then makePathGo fs subPath rest
    else
      let subPath1 := subPath ++ part ++ "/"
      if IsDir fs subPath1 then makePathGo fs subPath1 rest
      else if fs.mkdirFails subPath1 then
        .error ("Error - unable to make path " ++ subPath1)
      else makePathGo { fs with dirs := subPath1 :: fs.dirs } subPath1 rest

/-- Split at the FIRST `://` (`uri.find` in MakePath): the drive prefix
including the `://` itself (`uri.substr(0, drive_sep + 3)`) and the
remainder, or `none` when `find` returns `npos`. -/
def splitDrive : List Char → Option (List Char × List Char)
  | [] => none
  | c :: cs =>
    if c = ':' ∧ cs.take 2 = ['/', '/'] then some ([':', '/', '/'], cs.drop 2)
    else
      match splitDrive cs with
      | none => none
      | some (pre, post) => some (c :: pre, post)

/-- The tokens of `std::getline(ss, part, sep)` over a character list: split
on the separator, with no token after a trailing separator. -/
def getlineSplit (sep : Char) : List Char → List (List Char)
  | [] => []
  | c :: cs =>
    if c = sep then [] :: getlineSplit sep cs
    else
      match getlineSplit sep cs with
      | [] => [[c]]
      | p :: ps => (c :: p) :: ps

/-- `MakePath` (util/iohelpers.cpp lines 44-74): split a leading
`drive://` prefix off the uri (first occurrence, kept as the initial
`sub_path`), split the remainder on `/` with `std::getline`, and create
each missing directory in the chain, throwing when
`s3eFileMakeDirectory` fails. -/
def MakePath (fs : FileSys) (uri : String) : Except String FileSys :=
  match splitDrive uri.data with
  | some (drive, path) =>
    makePathGo fs ⟨drive⟩ ((getlineSplit '/' path).map (fun p => (⟨p⟩ : String)))
  | none =>
    makePathGo fs "" ((getlineSplit '/' uri.data).map (fun p => (⟨p⟩ : String)))

/-! ## HttpDownload (HttpRequest.cpp lines 42-76) -/

/-- An `HttpDownload` object: the base request plus the destination path
and the `m_pTmpFile` handle (modelled as a flag; the open file's identity
is the `.tmp` path in the filesystem state). -/
structure HttpDownload where
  base : HttpRequest
  destFile : String
  tmpOpen : Bool
deriving DecidableEq, Repr

/-- The path of the temporary download file: `m_destFile + ".tmp"`. -/
def HttpDownload.tmpPath (dl : HttpDownload) : String :=
  dl.destFile ++ ".tmp"

/-- The `HttpDownload(url, destFile)` constructor (HttpRequest.cpp lines
42-51): build the base request with method GET, create the destination
directory chain if missing — propagating `MakePath`'s thrown
`runtime_error` when `s3eFileMakeDirectory` fails, the constructor's only
failure mode — leave `m_pTmpFile` null, and set the status directly to
`PENDING`. No file is opened here. -/
def HttpDownload.construct (fs : FileSys) (url destFile : String) :
    Except String (HttpDownload × FileSys) :=
  let base0 := HttpRequest.init .GET url
  let downloadFolder := DirName destFile
  let made : HttpDownload :=
    { base := { base0 with status := .PENDING }, destFile := destFile, tmpOpen := false }
  if IsDir fs downloadFolder then .ok (made, fs)
  else
    match MakePath fs downloadFolder with
    | .error e => .error e
    | .ok fs1 => .ok (made, fs1)

/-- The value of a successful construction. On the throw path — where the
source produces no object at all — this returns the would-be object with
the filesystem untouched; every property evaluated on that path is also
stated for `HttpDownload.construct` itself. -/
def HttpDownload.init (fs : FileSys) (url destFile : String) : HttpDownload × FileSys :=
  match HttpDownload.construct fs url destFile with
  | .ok p => p
  | .error _ =>
    ({ base := { HttpRequest.init .GET url with status := .PENDING },
       destFile := destFile, tmpOpen := false }, fs)

/-- `HttpDownload::Worker_HandleData`: lazily open the `.tmp` file on the
first chunk (throwing a `runtime_error` — modelled as `Except.error` — if
the open fails), write the chunk, return `size`. -/
def HttpDownload.Worker_HandleData (dl : HttpDownload) (fs : FileSys)
    (contents : List Nat) : Except String (HttpDownload × FileSys × Nat) :=
  if !dl.tmpOpen then
    match fs.openW dl.tmpPath with
    | none => .error "Unable to open file for downloading!"
    | some fs1 =>
      .ok ({ dl with tmpOpen := true },
           fs1.append dl.tmpPath contents, contents.length)
  else
    .ok (dl, fs.append dl.tmpPath contents, contents.length)

/-- `HttpDownload::Worker_HandleDone`: if the `.tmp` file was opened,
close it, then rename it onto the destination exactly when
`success && httpStatusCode == 200`, and delete it otherwise. When no chunk
ever arrived (`m_pTmpFile` still null) nothing happens. -/
def HttpDownload.Worker_HandleDone (dl : HttpDownload) (fs : FileSys)
    (success : Bool) (httpStatusCode : Int) : HttpDownload × FileSys :=
  if dl.tmpOpen then
    let fs1 := if success && httpStatusCode == 200
      then fs.rename dl.tmpPath dl.destFile
      else fs.delete dl.tmpPath
    ({ dl with tmpOpen := false }, fs1)
  else (dl, fs)

/-- Feed a list of response chunks through `Worker_HandleData` in order,
stopping at the first thrown error. -/
def HttpDownload.runChunks (dl : HttpDownload) (fs : FileSys) :
    List (List Nat) → Except String (HttpDownload × FileSys)
  | [] => .ok (dl, fs)
  | chunk :: rest => do
    let (dl1, fs1, _) ← dl.Worker_HandleData fs chunk
    HttpDownload.runChunks dl1 fs1 rest

/-! ## HttpPost / HttpPostJson (HttpRequest.cpp lines 81-162)

The worker response buffer is `realloc`-grown on each received chunk. The
allocator is external, so each `Worker_HandleData` call takes the outcome
of its `realloc` as a parameter: `reallocOK = false` models a failed
reallocation (the source then stores the NULL result into
`m_workerResponseBuffer`, leaking and abandoning the bytes accumulated so
far). A later successful `realloc(NULL, n)` behaves as `malloc`: the first
`m_workerResponseSize` bytes of the fresh block are indeterminate, which
the model takes from a `junk` parameter. -/

/-- An `HttpPost` object (also the base of `HttpPostJson`, which inherits
`Worker_HandleData` and `HandleResponse` unchanged). -/
structure HttpPost where
  base : HttpRequest
  data : List (String × String)
  postData : List Nat
  bytesUploaded : Nat
  workerResponseBuffer : Option (List Nat)
  workerResponseSize : Nat
  responseData : JsonValue

/-- The `HttpPost(url)` constructor: method POST, status `BUILDING`, the
`Content-Type: application/x-www-form-urlencoded` header set while still
in `BUILDING` (so the `SetHeader` assertion holds), all buffers empty. -/
def HttpPost.init (url : String) : HttpPost :=
  let b0 := HttpRequest.init .POST url
  { base := (b0.SetHeader "Content-Type" "application/x-www-form-urlencoded").getD b0,
    data := [], postData := [], bytesUploaded := 0,
    workerResponseBuffer := none, workerResponseSize := 0,
    responseData := .null }

/-- `HttpPost::Worker_HandleData`: for a non-empty chunk, `realloc` the
response buffer to `m_workerResponseSize + size`; if that succeeds, append
the chunk and advance the size; if it fails, the buffer pointer becomes
NULL and the chunk is dropped. The return value is `size` in every case.
`junk` supplies the indeterminate leading bytes of a fresh block when a
successful `realloc` starts from a NULL pointer with a positive
accumulated size. -/
def HttpPost.Worker_HandleData (reallocOK : Bool) (junk : List Nat)
    (p : HttpPost) (contents : List Nat) : HttpPost × Nat :=
  if contents.length > 0 then
    if reallocOK then
      let old := match p.workerResponseBuffer with
        | some l => l
        | none => junk.takeD p.workerResponseSize 0
      ({ p with workerResponseBuffer := some (old ++ contents),
                workerResponseSize := p.workerResponseSize + contents.length },
       contents.length)
    else
      ({ p with workerResponseBuffer := none }, contents.length)
  else (p, contents.length)

/-- The byte string `string response(m_workerResponseBuffer,
m_workerResponseSize)` built at the top of `HandleResponse`. A NULL buffer
with a positive size would be a wild read in the source; no property below
evaluates that state. -/
def HttpPost.responseBytes (p : HttpPost) : List Nat :=
  (p.workerResponseBuffer.getD []).takeD p.workerResponseSize 0

/-- `HttpPost::HandleResponse` (HttpRequest.cpp lines 119-144): first the
base transition (`DONE`/`ERROR` from `success`), then, on success only:
an empty body stores `json::Null`; a body whose first byte is 91 (`[`) or
123 (`{`) is fed to `json::Reader::Read`, a parse exception setting
`m_status = ERROR` (the partially-built parse output is not observable
and is modelled as leaving `m_responseData` unchanged); any other body is
wrapped as `json::String`. The parse function is the external CAJUN
collaborator, passed as a parameter. -/
def HttpPost.HandleResponse (parse : JsonParse) (p : HttpPost)
    (success : Bool) (httpStatusCode : Int) : HttpPost :=
  let b1 := p.base.HandleResponse success
  let response := p.responseBytes
  if success then
    if response = [] then
      { p with base := b1, responseData := .null }
    else if response.head? = some 91 ∨ response.head? = some 123 then
      match parse response with
      | .ok v => { p with base := b1, responseData := v }
      | .error _ => { p with base := { b1 with status := .ERROR } }
    else
      { p with base := b1, responseData := .str response }
  else
    { p with base := b1 }

/-! ## YoutubeUploadRequest (youtube/YoutubeApi.cpp) -/

/-- A `YoutubeUploadRequest`: a PUT request streaming a file up, with the
same hand-rolled `realloc` response buffer as `HttpPost`. Only the fields
its `Worker_HandleData` touches are modelled in detail. -/
structure YoutubeUploadRequest where
  base : HttpRequest
  filePath : String
  fileSize : Int
  bytesUploaded : Nat
  uploadOpen : Bool
  workerResponseBuffer : Option (List Nat)
  workerResponseSize : Nat
  responseData : JsonValue

/-- `YoutubeUploadRequest::Worker_HandleData` (YoutubeApi.cpp lines
97-106): textually the same logic as `HttpPost::Worker_HandleData`,
embedded separately because it is a separate source function. -/
def YoutubeUploadRequest.Worker_HandleData (reallocOK : Bool) (junk : List Nat)
    (p : YoutubeUploadRequest) (contents : List Nat) : YoutubeUploadRequest × Nat :=
  if contents.length > 0 then
    if reallocOK then
      let old := match p.workerResponseBuffer with
        | some l => l
        | none => junk.takeD p.workerResponseSize 0
      ({ p with workerResponseBuffer := some (old ++ contents),
                workerResponseSize := p.workerResponseSize + contents.length },
       contents.length)
    else
      ({ p with workerResponseBuffer := none }, contents.length)
  else (p, contents.length)

/-! ## HttpClient_Worker and the libcurl callbacks (HttpClient.cpp lines 29-124) -/

/-- `CURLE_OK` (libcurl result code 0). -/
def CURLE_OK : Nat := 0

/-- `CURL_READFUNC_ABORT` (libcurl, 0x10000000): returned from a read
callback to abort the transfer. -/
def CURL_READFUNC_ABORT : Nat := 0x10000000

/-- `HttpClient_Worker::StatusCode`. -/
inductive WorkerStatusCode where
  | UNUSED | ACTIVE | DONE | CLEANUP | READY
deriving DecidableEq, Repr

/-- The shared `HttpClient_Worker` struct (thread-handle and condition
variable bookkeeping carry no observable data and are omitted; requests
are referred to by identifier into the client's request store). -/
structure HttpClient_Worker where
  status : WorkerStatusCode
  pRequest : Option Nat
  cancelAndQuit : Bool
  responseHeadersDone : Bool
  pResponseHeaders : RHList
  result : Nat
  responseStatusCode : Int
deriving DecidableEq, Repr

/-- The `HttpClient_Worker()` constructor. -/
def HttpClient_Worker.init : HttpClient_Worker :=
  { status := .UNUSED, pRequest := none, cancelAndQuit := false,
    responseHeadersDone := false, pResponseHeaders := [],
    result := CURLE_OK, responseStatusCode := 0 }

/-- Every write access either thread makes to the shared worker struct,
as named operations: the app thread's `CancelAndQuit` and `WakeToStatus`,
the worker thread's `Reset`, its status stores, its transfer-result
stores, and the header callback's stores; the app thread's assignment and
clearing of `pRequest`. This enumeration is the footprint of every
assignment to a `HttpClient_Worker` in HttpClient.cpp. -/
inductive WorkerOp where
  | cancelAndQuitOp
  | wakeToStatus (sc : WorkerStatusCode)
  | reset
  | assignRequest (rid : Option Nat)
  | setStatus (sc : WorkerStatusCode)
  | setResult (result : Nat) (code : Int)
  | headersDone
  | pushHeader (h v : String)
deriving DecidableEq, Repr

/-- Effect of each shared-struct write. `CancelAndQuit` sets the flag and
signals; `WakeToStatus` stores the status and signals; `Reset` clears the
header scratch state (`responseHeadersDone`, `pResponseHeaders`,
`responseStatusCode`) and nothing else. -/
def HttpClient_Worker.applyOp (w : HttpClient_Worker) : WorkerOp → HttpClient_Worker
  | .cancelAndQuitOp => { w with cancelAndQuit := true }
  | .wakeToStatus sc => { w with status := sc }
  | .reset => { w with responseHeadersDone := false, pResponseHeaders := [],
                       responseStatusCode := 0 }
  | .assignRequest rid => { w with pRequest := rid }
  | .setStatus sc => { w with status := sc }
  | .setResult result code => { w with result := result, responseStatusCode := code }
  | .headersDone => { w with responseHeadersDone := true }
  | .pushHeader h v => { w with pResponseHeaders := (h, v) :: w.pResponseHeaders }

/-- A sequence of shared-struct writes applied in order. -/
def HttpClient_Worker.applyOps (w : HttpClient_Worker) (ops : List WorkerOp) : HttpClient_Worker :=
  ops.foldl HttpClient_Worker.applyOp w

/-- Invocations of the Request's capability methods, as recorded by the
callback models. -/
inductive CapCall where
  | handleData (bytes : List Nat)
  | handleUpload (fillSize : Nat)
  | updateProgress
deriving DecidableEq, Repr

/-- `HttpClient_WorkerThread_WriteCallback`: if `cancelAndQuit` is set,
return 0 at once (an abort: fewer bytes consumed than delivered); else
forward the chunk to `Worker_HandleData`. `handleData` stands for the
virtual `Worker_HandleData` of the assigned request. -/
def WriteCallback (w : HttpClient_Worker) (handleData : List Nat → Nat)
    (contents : List Nat) (size nmemb : Nat) : Nat × List CapCall :=
  if w.cancelAndQuit then (0, [])
  else
    let realsize := size * nmemb
    (handleData (contents.take realsize), [.handleData (contents.take realsize)])

/-- `HttpClient_WorkerThread_ReadCallback`: if `cancelAndQuit` is set,
return `CURL_READFUNC_ABORT` at once; else forward to
`Worker_HandleUpload`. -/
def ReadCallback (w : HttpClient_Worker) (handleUpload : Nat → Nat)
    (size nmemb : Nat) : Nat × List CapCall :=
  if w.cancelAndQuit then (CURL_READFUNC_ABORT, [])
  else
    let realsize := size * nmemb
    (handleUpload realsize, [.handleUpload realsize])

/-- Drop a trailing CRLF, as `header.resize(header.size() - 2)` does when
the last two characters are `\r\n`. -/
def stripCRLF (h : List Char) : List Char :=
  if h.length ≥ 2 ∧ h.drop (h.length - 2) = ['\r', '\n'] then h.take (h.length - 2) else h

/-- The `while (header[colon_pos] == ' ') colon_pos++` skip. -/
def skipSpaces : List Char → List Char
  | ' ' :: rest => skipSpaces rest
  | l => l

/-- The header-line classification of
`HttpClient_WorkerThread_HeaderCallback`: an empty line marks the headers
done; a line with a colon is split into key and (space-stripped) value and
prepended to the scratch list; a colon-free line starting with `HTTP` is
stored under the key `HTTP`; anything else is dropped with a trace. -/
def headerParse (w : HttpClient_Worker) (header0 : List Char) : HttpClient_Worker :=
  let header := stripCRLF header0
  if header = [] then { w with responseHeadersDone := true }
  else match header.findIdx? (· = ':') with
    | some i =>
      let key := header.take i
      let val := skipSpaces (header.drop (i + 1))
      { w with pResponseHeaders := (String.mk key, String.mk val) :: w.pResponseHeaders }
    | none =>
      if header.take 4 = ['H', 'T', 'T', 'P'] then
        { w with pResponseHeaders := ("HTTP", String.mk header) :: w.pResponseHeaders }
      else w

/-- `HttpClient_WorkerThread_HeaderCallback`: if `cancelAndQuit` is set,
return 0 at once, touching nothing; else record the header line in the
worker struct and return `realsize`. No Request method is called. -/
def HeaderCallback (w : HttpClient_Worker) (pHeader : List Char)
    (size nmemb : Nat) : Nat × HttpClient_Worker :=
  if w.cancelAndQuit then (0, w)
  else (size * nmemb, headerParse w (pHeader.take (size * nmemb)))

/-- `HttpClient_WorkerThread_ProgressCallback`: if `cancelAndQuit` is set,
return 1 (libcurl aborts on any non-zero return); else forward to
`Worker_UpdateProgress` (the advisory double-valued counters are not
modelled) and return 0. -/
def ProgressCallback (w : HttpClient_Worker) : Nat × List CapCall :=
  if w.cancelAndQuit then (1, [])
  else (0, [.updateProgress])

/-! ## HttpClient (HttpClient.h, HttpClient.cpp lines 237-342)

Requests are kept in a store indexed by `Nat` identifiers (modelling the
`Ptr<HttpRequest>` object identities); the queue and the workers hold
identifiers into the store. Thread creation (`pthread_create`) is an
external OS call modelled as succeeding. Observable actions taken during
`Update` — capability invocations, callback deliveries, thread
spawns/wakes — are reported as an event list so that properties can talk
about what one `Update` call did. -/

/-- Everything one `HttpClient::Update` call does, in program order. -/
inductive UpdateEvent where
  | responseHeadersHandled (rid : Nat)
  | handleResponseCalled (rid : Nat) (success : Bool) (code : Int)
  | callbackCalled (cb : Nat) (rid : Nat)
  | assigned (widx rid : Nat)
  | spawnedThread (widx : Nat)
  | wokeWorker (widx : Nat)
  | droppedCancelled (rid : Nat)
deriving DecidableEq, Repr

/-- Point update of the request store. -/
def updateReq (reqs : Nat → HttpRequest) (rid : Nat) (f : HttpRequest → HttpRequest) :
    Nat → HttpRequest :=
  fun j => if j = rid then f (reqs j) else reqs j

/-- Accumulator of the first loop of `HttpClient::Update`: the request
store and callback list being mutated, the events so far, and
`p_free_worker` as the index of the first free worker seen. -/
structure Phase1Acc where
  requests : Nat → HttpRequest
  pendingCallbacks : List (Nat × Nat)
  events : List UpdateEvent
  freeIdx : Option Nat

/-- One iteration of the first loop of `HttpClient::Update`, for the
worker at index `idx`:
an `ACTIVE` worker whose headers just completed gets
`HandleResponseHeaders` run on its request; a `DONE` worker gets (if still
needed) `HandleResponseHeaders`, then `HandleResponse` with
`success = (result == CURLE_OK) && (responseStatusCode < 400)`, then its
registered callbacks fired and removed, then `WakeToStatus(CLEANUP)`;
a `CLEANUP` worker is left alone; an `UNUSED` or `READY` worker is
recorded as free (first one wins) and its stale `pRequest` reference is
cleared. A null `pRequest` on an `ACTIVE`/`DONE` worker would be a null
dereference in the source and cannot occur; the model leaves such a
worker unchanged. -/
def updateWorkerStep (idx : Nat) (acc : Phase1Acc) (w : HttpClient_Worker) :
    HttpClient_Worker × Phase1Acc :=
  if w.status = .ACTIVE then
    match w.pRequest with
    | some rid =>
      if (acc.requests rid).status = .SENDING ∧ w.responseHeadersDone then
        (w, { acc with
          requests := updateReq acc.requests rid (·.HandleResponseHeaders w.pResponseHeaders),
          events := acc.events ++ [.responseHeadersHandled rid] })
      else (w, acc)
    | none => (w, acc)
  else if w.status = .DONE then
    match w.pRequest with
    | some rid =>
      let headersLate := (acc.requests rid).status = .SENDING
      let reqs1 := if headersLate
        then updateReq acc.requests rid (·.HandleResponseHeaders w.pResponseHeaders)
        else acc.requests
      let success := (w.result == CURLE_OK) && decide (w.responseStatusCode < 400)
      let reqs2 := updateReq reqs1 rid (·.HandleResponse success)
      let fired := acc.pendingCallbacks.filter (fun pc => pc.1 = rid)
      let kept := acc.pendingCallbacks.filter (fun pc => ¬ pc.1 = rid)
      ({ w with status := .CLEANUP },
       { acc with
         requests := reqs2,
         pendingCallbacks := kept,
         events := acc.events
           ++ (if headersLate then [.responseHeadersHandled rid] else [])
           ++ [.handleResponseCalled rid success w.responseStatusCode]
           ++ fired.map (fun pc => .callbackCalled pc.2 pc.1) })
    | none => (w, acc)
  else if w.status = .CLEANUP then (w, acc)
  else
    ({ w with pRequest := none },
     { acc with freeIdx := acc.freeIdx.orElse (fun _ => some idx) })

/-- The first loop of `HttpClient::Update` over the worker array, left to
right, threading the accumulator. -/
def runPhase1 (idx : Nat) (acc : Phase1Acc) :
    List HttpClient_Worker → List HttpClient_Worker × Phase1Acc
  | [] => ([], acc)
  | w :: ws =>
    let (w1, acc1) := updateWorkerStep idx acc w
    let (ws1, acc2) := runPhase1 (idx + 1) acc1 ws
    (w1 :: ws1, acc2)

/-- The `HttpClient` coordinator state. -/
structure HttpClient where
  workers : List HttpClient_Worker
  pendingRequests : List Nat
  pendingCallbacks : List (Nat × Nat)
  requests : Nat → HttpRequest

/-- `HttpClient::Update` (HttpClient.cpp lines 263-342): the worker loop,
then — when a free worker was found AND the pending queue is non-empty —
pop exactly one request off the queue head; a request no longer `PENDING`
(cancelled while queued) is dropped without touching any worker; a
`PENDING` one is assigned to the free worker (`HandleRequestStart`, i.e.
`PENDING → SENDING`), whose thread is spawned if it was `UNUSED` and woken
to `ACTIVE` if it was `READY`. -/
def HttpClient.Update (s : HttpClient) : HttpClient × List UpdateEvent :=
  let r := runPhase1 0 ⟨s.requests, s.pendingCallbacks, [], none⟩ s.workers
  let ws1 := r.1
  let acc := r.2
  match acc.freeIdx, s.pendingRequests with
  | some i, rid :: rest =>
    if (acc.requests rid).status = .PENDING then
      match ws1[i]? with
      | some w0 =>
        let reqs2 := updateReq acc.requests rid HttpRequest.HandleRequestStart
        let startEv := if w0.status = .UNUSED then UpdateEvent.spawnedThread i
                       else UpdateEvent.wokeWorker i
        let w1 := { w0 with pRequest := some rid, status := .ACTIVE }
        ({ workers := ws1.set i w1, pendingRequests := rest,
           pendingCallbacks := acc.pendingCallbacks, requests := reqs2 },
         acc.events ++ [.assigned i rid, startEv])
      | none =>
        ({ workers := ws1, pendingRequests := rest,
           pendingCallbacks := acc.pendingCallbacks, requests := acc.requests },
         acc.events)
    else
      ({ workers := ws1, pendingRequests := rest,
         pendingCallbacks := acc.pendingCallbacks, requests := acc.requests },
       acc.events ++ [.droppedCancelled rid])
  | _, _ =>
    ({ workers := ws1, pendingRequests := s.pendingRequests,
       pendingCallbacks := acc.pendingCallbacks, requests := acc.requests },
     acc.events)

/-- `HttpClient::QueueRequest`: auto-compile a request still in
`BUILDING`, assert it is now `PENDING` (`none` on violation), push it on
the pending queue and record the optional callback. The returned flag
reports whether the auto-compile step ran (observable only to the
verification, not to the program). -/
def HttpClient.QueueRequest (s : HttpClient) (rid : Nat) (cb : Option Nat) :
    Option (HttpClient × Bool) :=
  let r := s.requests rid
  let compiled : Option (HttpRequest × Bool) :=
    if r.status = .BUILDING then r.CompileRequest.map (fun r1 => (r1, true))
    else some (r, false)
  match compiled with
  | some (r1, didCompile) =>
    if r1.status = .PENDING then
      some ({ s with
        requests := updateReq s.requests rid (fun _ => r1),
        pendingRequests := s.pendingRequests ++ [rid],
        pendingCallbacks := s.pendingCallbacks ++
          (match cb with | some c => [(rid, c)] | none => []) }, didCompile)
    else none
  | none => none

/-! ## HttpDownloader (HttpDownloader.h)

Every callback the downloader registers is a fresh
`HttpCallback(this, &HttpDownloader::HandleDownloadDone)`; all of them
dispatch to the same method of the same live downloader, so they are
modelled by the single callback identifier `hdlDownloadDoneCb`. During
`HttpClient::Update` those `Call` invocations mutate only
`m_activeDownloads`, which `Update` itself never reads or writes, so
replaying them in event order after the client update is exact. -/

/-- The identifier of the downloader's `HandleDownloadDone` callback. -/
def hdlDownloadDoneCb : Nat := 0

/-- The `HttpDownloader` state: the wrapped client plus the
url-to-in-flight-request map. `nextId` models the allocator handing out
fresh `HttpRequest` object identities. -/
structure HttpDownloader where
  client : HttpClient
  activeDownloads : List (String × Nat)
  nextId : Nat

/-- Erase the first map entry whose VALUE is the given request, as the
loop in `HttpDownloader::HandleDownloadDone` does (`break` after the first
match). -/
def eraseFirstValue : List (String × Nat) → Nat → List (String × Nat)
  | [], _ => []
  | p :: rest, rid => if p.2 = rid then rest else p :: eraseFirstValue rest rid

/-- `HttpDownloader::HandleDownloadDone`: remove the finished request from
the active map, success and failure alike. -/
def HttpDownloader.HandleDownloadDone (d : HttpDownloader) (rid : Nat) : HttpDownloader :=
  { d with activeDownloads := eraseFirstValue d.activeDownloads rid }

/-- `HttpDownloader::DownloadFile`: if the url is already mapped, return
the mapped request untouched; otherwise construct a fresh `HttpDownload`,
queue it with a `HandleDownloadDone` callback, record the mapping, and
return it. Returns the request identifier plus the new state. (For a
fresh `HttpDownload` the status is `PENDING`, so `QueueRequest` cannot
fault; the `getD` default is never reached.) -/
def HttpDownloader.DownloadFile (d : HttpDownloader) (fs : FileSys)
    (url destFile : String) : Nat × HttpDownloader × FileSys :=
  match mapLookup d.activeDownloads url with
  | some rid => (rid, d, fs)
  | none =>
    let (dl, fs1) := HttpDownload.init fs url destFile
    let rid := d.nextId
    let client0 := { d.client with
      requests := updateReq d.client.requests rid (fun _ => dl.base) }
    let client1 := (client0.QueueRequest rid (some hdlDownloadDoneCb)).map Prod.fst |>.getD client0
    (rid,
     { client := client1,
       activeDownloads := mapInsert d.activeDownloads url rid,
       nextId := d.nextId + 1 },
     fs1)

/-- Dispatch of one `Call` invocation made during the wrapped client's
update: a `HandleDownloadDone` callback removes its request from the
active map; no other action of `HttpClient::Update` touches the map. -/
def applyDownloaderEvent (d : HttpDownloader) (ev : UpdateEvent) : HttpDownloader :=
  match ev with
  | .callbackCalled cb rid =>
    if cb = hdlDownloadDoneCb then d.HandleDownloadDone rid else d
  | _ => d

/-- `HttpDownloader::Update`: run the wrapped client's update; each
`HandleDownloadDone` callback the client fired removes its request from
the active map. -/
def HttpDownloader.Update (d : HttpDownloader) : HttpDownloader × List UpdateEvent :=
  let (c1, evs) := d.client.Update
  (evs.foldl applyDownloaderEvent { d with client := c1 }, evs)

/-- Keys of the active-download map are unique (a `std::map` invariant). -/
def keysNodup (m : List (String × Nat)) : Prop :=
  (m.map Prod.fst).Nodup

/-! ## Derived observation helpers used by the statements below -/

/-- A complete download transfer, end to end: the coordinator's
`HandleRequestStart` at dispatch, the worker feeding each received chunk
through `Worker_HandleData`, the worker-thread completion call
`Worker_HandleDone(result == CURLE_OK, code)` (HttpClient.cpp line 178),
then the coordinator's `HandleResponseHeaders` and
`HandleResponse((result == CURLE_OK) && (code < 400), code)` from the
`DONE` branch of `HttpClient::Update`. -/
def downloadScenario (fs : FileSys) (url destFile : String) (rh : RHList)
    (chunks : List (List Nat)) (resultOK : Bool) (code : Int) :
    Except String (HttpDownload × FileSys) :=
  let (dl0, fs0) := HttpDownload.init fs url destFile
  let dl0 := { dl0 with base := dl0.base.HandleRequestStart }
  match dl0.runChunks fs0 chunks with
  | .error e => .error e
  | .ok (dl1, fs1) =>
    let (dl2, fs2) := dl1.Worker_HandleDone fs1 resultOK code
    let success := resultOK && decide (code < 400)
    let base3 := (dl2.base.HandleResponseHeaders rh).HandleResponse success
    .ok ({ dl2 with base := base3 }, fs2)

/-- Request status of a finished download scenario. -/
def scenarioStatus : Except String (HttpDownload × FileSys) → Option Status
  | .ok (dl, _) => some dl.base.status
  | .error _ => none

/-- File presence in the filesystem of a finished download scenario. -/
def scenarioHasFile (path : String) : Except String (HttpDownload × FileSys) → Option Bool
  | .ok (_, fs) => some (fs.hasFile path)
  | .error _ => none

/-- File contents in the filesystem of a finished download scenario. -/
def scenarioRead (path : String) : Except String (HttpDownload × FileSys) → Option (Option (List Nat))
  | .ok (_, fs) => some (fs.read path)
  | .error _ => none

/-- The `else` branch test of the worker loop in `HttpClient::Update`: a
worker whose status is neither `ACTIVE`, `DONE` nor `CLEANUP`, i.e.
`UNUSED` or `READY`, can receive a new request. -/
def isFreeWorker (w : HttpClient_Worker) : Bool :=
  match w.status with
  | .UNUSED => true
  | .READY => true
  | _ => false

/-- Index of the first free worker in array order (the value
`p_free_worker` ends up pointing at). -/
def firstFreeIdx : List HttpClient_Worker → Option Nat
  | [] => none
  | w :: ws => if isFreeWorker w then some 0 else (firstFreeIdx ws).map (· + 1)

/-- Per-worker effect of the first loop of `HttpClient::Update` on the
worker struct itself (the store/callback/event effects are threaded
through the accumulator): `DONE` becomes `CLEANUP`, a free worker's stale
`pRequest` is cleared, everything else is untouched. -/
def transformWorker (w : HttpClient_Worker) : HttpClient_Worker :=
  if w.status = .ACTIVE then w
  else if w.status = .DONE then
    (match w.pRequest with
     | some _ => { w with status := .CLEANUP }
     | none => w)
  else if w.status = .CLEANUP then w
  else { w with pRequest := none }

/-- Recognizer for new-assignment events. -/
def isAssignedEv : UpdateEvent → Bool
  | .assigned _ _ => true
  | _ => false

/-- An empty filesystem on which every open succeeds (used to instantiate
concrete scenarios). -/
def fsEmpty : FileSys := ⟨[], [], fun _ => false, fun _ => false⟩

/-- Append a sequence of chunks to one file, in order. -/
def appendAll (fs : FileSys) (path : String) (chunks : List (List Nat)) : FileSys :=
  chunks.foldl (fun f ch => f.append path ch) fs

/-- A concrete `PENDING` GET request (used to instantiate scenarios). -/
def reqPENDING : HttpRequest :=
  { method := .GET, url := "u", status := .PENDING,
    requestHeaders := [], responseHeaders := [] }

/-- A concrete one-worker client with request 5 queued (used to
instantiate the dispatch property). -/
def c1Client : HttpClient :=
  ⟨[HttpClient_Worker.init], [5], [], fun _ => reqPENDING⟩

end HttpUtils

namespace HttpUtils

/-! ## Sanity checks on UrlEncode -/

example : UrlEncode [97, 32, 98, 38, 99] false = "a+b%26c".toList := by decide

example : UrlEncode [97, 32, 98, 38, 99] true = "a%20b%26c".toList := by decide

/-! ## Claim C4 — UrlEncode character classes -/

set_option maxRecDepth 16384 in
/-- Helper for C4: on bytes, the code's per-character encoding agrees with
the amended (lowercase-hex, strict-encodes-dash-underscore-dot) rule. -/
theorem urlEncodeChar_eq_amendedChar (strict : Bool) :
    ∀ c : Nat, c < 256 → urlEncodeChar strict c = urlEncodeAmendedChar strict c := by
  cases strict <;> decide

/-- Claim C4 is FALSE as stated: it says `-` `_` `.` pass through
unescaped in both modes and that escapes use uppercase hex. The code
(HttpRequest.cpp line 28) passes them through only when `!strict`, so in
strict mode `-` (byte 45) becomes `%2d`, which is also lowercase where the
claim demands `%2D`; and `~` (byte 126) becomes `%7e`, not `%7E`, in both
modes. `urlEncodeClaim` is the rule exactly as the claim words it. -/
theorem C4_counterexample :
    UrlEncode [45] true = "%2d".toList ∧
    urlEncodeClaim [45] true = "-".toList ∧
    UrlEncode [45] true ≠ urlEncodeClaim [45] true ∧
    UrlEncode [126] false = "%7e".toList ∧
    urlEncodeClaim [126] false = "%7E".toList ∧
    UrlEncode [126] false ≠ urlEncodeClaim [126] false := by
  refine ⟨by decide, by decide, by decide, by decide, by decide, by decide⟩

/-- Claim C4, amended: for every input byte string, `UrlEncode` passes
alphanumerics unescaped in both modes; passes `-` `_` `.` unescaped only
in the lenient mode (they are percent-encoded in strict mode); encodes
space as `+` only in the lenient mode; and encodes every other byte as
`%` followed by two zero-padded LOWERCASE hex digits of the byte value,
in both modes. -/
theorem C4_urlEncode_amended (strict : Bool) (value : List Nat)
    (h : ∀ c ∈ value, c < 256) :
    UrlEncode value strict = (value.map (urlEncodeAmendedChar strict)).flatten := by
  unfold UrlEncode
  have hm : value.map (urlEncodeChar strict) = value.map (urlEncodeAmendedChar strict) :=
    List.map_congr_left (fun c hc => urlEncodeChar_eq_amendedChar strict c (h c hc))
  rw [hm]

/-- Witness for C4: the amended rule evaluated on the concrete bytes of
"a -.~" in strict mode. -/
theorem C4_urlEncode_amended_witness :
    UrlEncode [97, 32, 45, 46, 126] true =
      (([97, 32, 45, 46, 126] : List Nat).map (urlEncodeAmendedChar true)).flatten :=
  C4_urlEncode_amended true [97, 32, 45, 46, 126] (by decide)

/-! ## MakePath and HttpDownload constructor lemmas -/

/-- The directory-creation loop touches only `dirs`: files and the open
oracle survive a successful `MakePath`. -/
theorem makePathGo_files :
    ∀ (parts : List String) (fs : FileSys) (subPath : String) (fs1 : FileSys),
      makePathGo fs subPath parts = .ok fs1 →
      fs1.files = fs.files ∧ fs1.openFails = fs.openFails := by
  intro parts
  induction parts with
  | nil =>
    intro fs subPath fs1 h
    injection h with h
    subst h
    exact ⟨rfl, rfl⟩
  | cons part rest ih =>
    intro fs subPath fs1 h
    unfold makePathGo at h
    (try simp only [] at h)
    split at h
    · exact ih fs subPath fs1 h
    · split at h
      · exact ih fs _ fs1 h
      · split at h
        · cases h
        · have hrec := ih _ _ fs1 h
          exact hrec

theorem makePath_files (fs : FileSys) (uri : String) (fs1 : FileSys)
    (h : MakePath fs uri = .ok fs1) :
    fs1.files = fs.files ∧ fs1.openFails = fs.openFails := by
  unfold MakePath at h
  split at h <;> exact makePathGo_files _ _ _ _ h

/-- A successful construction yields exactly the `PENDING` download object
and changes no file. -/
theorem construct_ok (fs : FileSys) (url destFile : String) (dl : HttpDownload)
    (fs1 : FileSys) (h : HttpDownload.construct fs url destFile = .ok (dl, fs1)) :
    dl = { base := { method := .GET, url := url, status := .PENDING,
                     requestHeaders := [], responseHeaders := [] },
           destFile := destFile, tmpOpen := false } ∧
    fs1.files = fs.files ∧ fs1.openFails = fs.openFails := by
  unfold HttpDownload.construct at h
  (try simp only [] at h)
  split at h
  · injection h with h
    injection h with h1 h2
    subst h1
    subst h2
    exact ⟨rfl, rfl, rfl⟩
  · split at h
    · cases h
    · rename_i fs2 heq
      injection h with h
      injection h with h1 h2
      subst h1
      subst h2
      exact ⟨rfl, (makePath_files _ _ _ heq).1, (makePath_files _ _ _ heq).2⟩

/-- The object component of `HttpDownload.init`, on both paths. -/
theorem init_fst (fs : FileSys) (url destFile : String) :
    (HttpDownload.init fs url destFile).1 =
      { base := { method := .GET, url := url, status := .PENDING,
                  requestHeaders := [], responseHeaders := [] },
        destFile := destFile, tmpOpen := false } := by
  unfold HttpDownload.init
  split
  · rename_i p heq
    obtain ⟨dl, fs1⟩ := p
    exact (construct_ok fs url destFile dl fs1 heq).1
  · rfl

/-- `HttpDownload.init` changes no file and no open oracle. -/
theorem init_files (fs : FileSys) (url destFile : String) :
    (HttpDownload.init fs url destFile).2.files = fs.files ∧
    (HttpDownload.init fs url destFile).2.openFails = fs.openFails := by
  unfold HttpDownload.init
  split
  · rename_i p heq
    obtain ⟨dl, fs1⟩ := p
    exact ⟨(construct_ok fs url destFile dl fs1 heq).2.1,
           (construct_ok fs url destFile dl fs1 heq).2.2⟩
  · exact ⟨rfl, rfl⟩

/-! ## Claim C9 — HttpDownload never passes through Building -/

/-- Claim C9: every `HttpDownload` is already `PENDING` immediately after
construction; `SetHeader` and `CompileRequest`, which both assert
`BUILDING`, fault on it (`none`); and `QueueRequest`'s auto-compile step
is skipped for it (the returned flag is `false`) while the request is
still pushed on the pending queue with its callback recorded. -/
theorem C9_httpDownload_skips_building
    (fs : FileSys) (url destFile header value : String) :
    (HttpDownload.init fs url destFile).1.base.status = .PENDING ∧
    (HttpDownload.init fs url destFile).1.base.SetHeader header value = none ∧
    (HttpDownload.init fs url destFile).1.base.CompileRequest = none ∧
    ∀ (s : HttpClient) (rid : Nat) (cb : Option Nat),
      s.requests rid = (HttpDownload.init fs url destFile).1.base →
      s.QueueRequest rid cb =
        some ({ s with
          requests := updateReq s.requests rid
            (fun _ => (HttpDownload.init fs url destFile).1.base),
          pendingRequests := s.pendingRequests ++ [rid],
          pendingCallbacks := s.pendingCallbacks ++
            (match cb with | some c => [(rid, c)] | none => []) }, false) := by
  refine ⟨?_, ?_, ?_, ?_⟩
  · rw [init_fst]
  · rw [init_fst]; rfl
  · rw [init_fst]; rfl
  · intro s rid cb h
    rw [init_fst] at h
    rw [init_fst]
    simp [HttpClient.QueueRequest, h, HttpRequest.CompileRequest]

/-- Witness for C9 at a concrete download and client state. -/
theorem C9_witness :
    (HttpDownload.init fsEmpty "u" "d/f").1.base.status = .PENDING ∧
    (HttpDownload.init fsEmpty "u" "d/f").1.base.SetHeader "X-Test" "1" = none ∧
    (HttpDownload.init fsEmpty "u" "d/f").1.base.CompileRequest = none ∧
    (HttpClient.QueueRequest
        ⟨[], [], [], fun _ => (HttpDownload.init fsEmpty "u" "d/f").1.base⟩ 3 (some 7)).map
        (fun p => (p.1.pendingRequests, p.1.pendingCallbacks, p.2)) =
      some ([3], [(3, 7)], false) := by
  obtain ⟨h1, h2, h3, h4⟩ := C9_httpDownload_skips_building fsEmpty "u" "d/f" "X-Test" "1"
  refine ⟨h1, h2, h3, ?_⟩
  rw [h4 ⟨[], [], [], fun _ => (HttpDownload.init fsEmpty "u" "d/f").1.base⟩ 3 (some 7) rfl]
  rfl

/-! ## Claim C6 — when a failed destination open is reported -/

/-- Claim C6 is FALSE as stated: construction of an `HttpDownload` whose
destination cannot be opened succeeds anyway — the constructor
(HttpRequest.cpp lines 42-51) only creates missing directories and opens
no file — and the open failure surfaces only when the first body chunk
reaches `Worker_HandleData` on the worker thread, as a thrown
`runtime_error`. Concrete input: destination `dl/f.bin` in an existing
directory `dl`, on a filesystem that refuses to open `dl/f.bin.tmp`:
construction returns `.ok` (nothing reported), the first chunk errors. -/
theorem C6_counterexample :
    HttpDownload.construct ⟨[], ["dl"], fun p => p = "dl/f.bin.tmp", fun _ => false⟩
        "u" "dl/f.bin"
      = .ok ({ base := { method := .GET, url := "u", status := .PENDING,
                         requestHeaders := [], responseHeaders := [] },
               destFile := "dl/f.bin", tmpOpen := false },
             ⟨[], ["dl"], fun p => p = "dl/f.bin.tmp", fun _ => false⟩) ∧
    HttpDownload.Worker_HandleData
      { base := { method := .GET, url := "u", status := .PENDING,
                  requestHeaders := [], responseHeaders := [] },
        destFile := "dl/f.bin", tmpOpen := false }
      ⟨[], ["dl"], fun p => p = "dl/f.bin.tmp", fun _ => false⟩ [104, 105]
      = .error "Unable to open file for downloading!" :=
  ⟨rfl, rfl⟩

/-- Claim C6, amended: the constructor of an `HttpDownload` opens no
file — a successful construction leaves the object `PENDING` with the
temporary file not yet open and the filesystem's files untouched — and
its only failure mode is `MakePath` throwing when a missing destination
directory cannot be created; a destination file that cannot be opened is
detected only when the first received chunk reaches `Worker_HandleData`,
on the worker thread, where it raises an error instead of silently
dropping data. -/
theorem C6_open_failure_amended :
    (∀ (fs : FileSys) (url destFile : String) (dl : HttpDownload) (fs1 : FileSys),
       HttpDownload.construct fs url destFile = .ok (dl, fs1) →
       dl.base.status = .PENDING ∧ dl.tmpOpen = false ∧ fs1.files = fs.files) ∧
    (∀ (fs : FileSys) (url destFile e : String),
       IsDir fs (DirName destFile) = false →
       MakePath fs (DirName destFile) = .error e →
       HttpDownload.construct fs url destFile = .error e) ∧
    (∀ (dl : HttpDownload) (fs : FileSys) (contents : List Nat),
       dl.tmpOpen = false → fs.openFails dl.tmpPath = true →
       dl.Worker_HandleData fs contents = .error "Unable to open file for downloading!") := by
  refine ⟨?_, ?_, ?_⟩
  · intro fs url destFile dl fs1 h
    obtain ⟨h1, h2, _⟩ := construct_ok fs url destFile dl fs1 h
    subst h1
    exact ⟨rfl, rfl, h2⟩
  · intro fs url destFile e hdir hmp
    unfold HttpDownload.construct
    (try simp only [])
    rw [if_neg (by simp [hdir]), hmp]
  · intro dl fs contents h1 h2
    simp [HttpDownload.Worker_HandleData, FileSys.openW, h1, h2]

/-- Witness for C6's amended property at concrete states: a successful
construction (destination `d/f`, directory `d` freshly created) touches
no file; construction with an uncreatable directory `x` fails with the
`MakePath` error; a chunk arriving while `x2/f.bin.tmp` cannot be opened
errors out. -/
theorem C6_open_failure_amended_witness :
    ({ base := { method := .GET, url := "u", status := .PENDING,
                 requestHeaders := [], responseHeaders := [] },
       destFile := "d/f", tmpOpen := false } : HttpDownload).base.status = .PENDING ∧
    (⟨[], ["d/"], fun _ => false, fun _ => false⟩ : FileSys).files = fsEmpty.files ∧
    HttpDownload.construct ⟨[], [], fun _ => false, fun p => p = "x/"⟩ "u" "x/f"
      = .error "Error - unable to make path x/" ∧
    HttpDownload.Worker_HandleData
      { base := HttpRequest.init .GET "u", destFile := "a/b", tmpOpen := false }
      ⟨[], [], fun p => p = "a/b.tmp", fun _ => false⟩ [1, 2, 3]
      = .error "Unable to open file for downloading!" := by
  have h1 := C6_open_failure_amended.1 fsEmpty "u" "d/f"
    { base := { method := .GET, url := "u", status := .PENDING,
                requestHeaders := [], responseHeaders := [] },
      destFile := "d/f", tmpOpen := false }
    ⟨[], ["d/"], fun _ => false, fun _ => false⟩ rfl
  have h2 := C6_open_failure_amended.2.1 ⟨[], [], fun _ => false, fun p => p = "x/"⟩
    "u" "x/f" "Error - unable to make path x/" rfl rfl
  have h3 := C6_open_failure_amended.2.2
    { base := HttpRequest.init .GET "u", destFile := "a/b", tmpOpen := false }
    ⟨[], [], fun p => p = "a/b.tmp", fun _ => false⟩ [1, 2, 3] rfl (by decide)
  exact ⟨h1.1, h1.2.2, h2, h3⟩

/-! ## Claim C2 — cancellation aborts every callback -/

/-- Helper for C2: no shared-struct write ever clears the cancellation
flag — once `cancelAndQuit` is set, any sequence of the writes occurring
in HttpClient.cpp leaves it set. -/
theorem cancelAndQuit_monotone :
    ∀ (ops : List WorkerOp) (w : HttpClient_Worker),
      w.cancelAndQuit = true → (w.applyOps ops).cancelAndQuit = true := by
  intro ops
  induction ops with
  | nil => intro w h; exact h
  | cons op rest ih =>
    intro w h
    have h1 : (w.applyOp op).cancelAndQuit = true := by
      cases op <;> simp [HttpClient_Worker.applyOp, h]
    exact ih _ h1

/-- Claim C2: with the cancellation flag set, every transport-engine
callback returns its abort indication immediately — the write and header
callbacks return 0 (fewer bytes than the `size * nmemb > 0` delivered),
the read callback returns `CURL_READFUNC_ABORT`, the progress callback
returns 1 — and none of them invokes any Request capability method (the
header callback also leaves the worker struct untouched); and the flag is
never cleared once set. -/
theorem C2_cancel_aborts_callbacks
    (w : HttpClient_Worker) (handleData : List Nat → Nat) (handleUpload : Nat → Nat)
    (contents : List Nat) (hdr : List Char) (size nmemb : Nat)
    (hc : w.cancelAndQuit = true) (hsz : 0 < size * nmemb)
    (ops : List WorkerOp) :
    WriteCallback w handleData contents size nmemb = (0, []) ∧ 0 ≠ size * nmemb ∧
    ReadCallback w handleUpload size nmemb = (CURL_READFUNC_ABORT, []) ∧
    HeaderCallback w hdr size nmemb = (0, w) ∧
    ProgressCallback w = (1, []) ∧
    (w.applyOps ops).cancelAndQuit = true := by
  refine ⟨?_, by omega, ?_, ?_, ?_, cancelAndQuit_monotone ops w hc⟩
  · simp [WriteCallback, hc]
  · simp [ReadCallback, hc]
  · simp [HeaderCallback, hc]
  · simp [ProgressCallback, hc]

/-- Witness for C2 at a concrete cancelled worker and a sample write
sequence. -/
theorem C2_cancel_aborts_callbacks_witness :
    WriteCallback { HttpClient_Worker.init with cancelAndQuit := true }
        (fun bs => bs.length) [10, 20] 1 2 = (0, []) ∧
    0 ≠ 1 * 2 ∧
    ReadCallback { HttpClient_Worker.init with cancelAndQuit := true }
        (fun n => n) 1 2 = (CURL_READFUNC_ABORT, []) ∧
    HeaderCallback { HttpClient_Worker.init with cancelAndQuit := true }
        "HTTP/1.1 200 OK".toList 1 2 =
      (0, { HttpClient_Worker.init with cancelAndQuit := true }) ∧
    ProgressCallback { HttpClient_Worker.init with cancelAndQuit := true } = (1, []) ∧
    (HttpClient_Worker.applyOps { HttpClient_Worker.init with cancelAndQuit := true }
        [.reset, .wakeToStatus .CLEANUP, .setStatus .READY]).cancelAndQuit = true :=
  C2_cancel_aborts_callbacks _ _ _ _ _ 1 2 rfl (by decide)
    [.reset, .wakeToStatus .CLEANUP, .setStatus .READY]

/-! ## Claim C10 — realloc failure silently drops response chunks -/

/-- Claim C10: `Worker_HandleData` of both `HttpPost` and
`YoutubeUploadRequest` returns the full chunk size whatever the `realloc`
outcome; a failed reallocation leaves the accumulated size unchanged and
the buffer NULL (the chunk is discarded, no consumer-side abort is
signalled); and a transfer in which the first chunk's reallocation fails
but a later one succeeds ends with a truncated response body while
`HandleResponse(success)` still reaches `DONE`. -/
theorem C10_handleData_never_aborts
    (rok : Bool) (junk : List Nat) (p : HttpPost) (y : YoutubeUploadRequest)
    (contents : List Nat) (hne : contents ≠ []) (parse : JsonParse) :
    (HttpPost.Worker_HandleData rok junk p contents).2 = contents.length ∧
    (YoutubeUploadRequest.Worker_HandleData rok junk y contents).2 = contents.length ∧
    ((HttpPost.Worker_HandleData false junk p contents).1.workerResponseSize
        = p.workerResponseSize ∧
     (HttpPost.Worker_HandleData false junk p contents).1.workerResponseBuffer = none) ∧
    ((YoutubeUploadRequest.Worker_HandleData false junk y contents).1.workerResponseSize
        = y.workerResponseSize ∧
     (YoutubeUploadRequest.Worker_HandleData false junk y contents).1.workerResponseBuffer = none) ∧
    (((HttpPost.init "u").Worker_HandleData false [] [104, 105]).1.Worker_HandleData true [] [119]
       |>.1.responseBytes = [119] ∧
     [119] ≠ [104, 105, 119] ∧
     (HttpPost.HandleResponse parse
        (((HttpPost.init "u").Worker_HandleData false [] [104, 105]).1.Worker_HandleData true [] [119]).1
        true 200).base.status = .DONE) := by
  have hlen : 0 < contents.length := List.length_pos.mpr hne
  refine ⟨?_, ?_, ?_, ?_, by decide, by decide, ?_⟩
  · unfold HttpPost.Worker_HandleData
    split <;> (try split) <;> rfl
  · unfold YoutubeUploadRequest.Worker_HandleData
    split <;> (try split) <;> rfl
  · simp [HttpPost.Worker_HandleData, hlen]
  · simp [YoutubeUploadRequest.Worker_HandleData, hlen]
  · rfl

/-- Witness for C10 at a concrete post, upload request and chunk. -/
theorem C10_handleData_never_aborts_witness :
    ((HttpPost.init "u").Worker_HandleData true [] [1, 2]).2 = 2 ∧
    (HttpPost.Worker_HandleData false []
        (HttpPost.init "u") [1, 2]).1.workerResponseSize = 0 := by
  have h := C10_handleData_never_aborts true []
    (HttpPost.init "u")
    { base := HttpRequest.init .PUT "r", filePath := "f", fileSize := 9,
      bytesUploaded := 0, uploadOpen := false, workerResponseBuffer := none,
      workerResponseSize := 0, responseData := .null }
    [1, 2] (by decide) (fun _ => .error "unused")
  exact ⟨h.1, h.2.2.1.1⟩

/-! ## Claim C7 — response-body parsing of FormPost/JsonPost -/

/-- Claim C7 is FALSE as stated on one input: a successful response with
an EMPTY body. The claim says every successful non-JSON-looking body is
wrapped as a plain string value, but `HttpPost::HandleResponse`
(HttpRequest.cpp lines 124-126) special-cases the empty body and stores
`json::Null`, not `json::String("")`. -/
theorem C7_counterexample :
    (HttpPost.init "u").responseBytes = [] ∧
    (HttpPost.HandleResponse (fun _ => .error "unused") (HttpPost.init "u") true 200).responseData
        = JsonValue.null ∧
    JsonValue.null ≠ JsonValue.str [] ∧
    (HttpPost.HandleResponse (fun _ => .error "unused") (HttpPost.init "u") true 200).base.status
        = .DONE :=
  ⟨rfl, rfl, fun h => JsonValue.noConfusion h, rfl⟩

/-- Claim C7, amended: for every FormPost/JsonPost whose transport and
HTTP status both succeeded, a body starting with `[` (91) or `{` (123) is
parsed as a structured value — a parse failure leaves the request in
`ERROR`, a parse success stores the value and leaves it `DONE`; a
successful non-empty body not starting with either byte is wrapped as a
plain string value and the request ends `DONE`; an EMPTY successful body
is stored as the null value (not a string) and the request ends `DONE`. -/
theorem C7_post_response_parsing (parse : JsonParse) (p : HttpPost) (l : List Nat)
    (code : Int) (hbuf : p.workerResponseBuffer = some l)
    (hsz : p.workerResponseSize = l.length) :
    p.responseBytes = l ∧
    (l = [] →
       (HttpPost.HandleResponse parse p true code).responseData = .null ∧
       (HttpPost.HandleResponse parse p true code).base.status = .DONE) ∧
    (∀ c rest, l = c :: rest → (c = 91 ∨ c = 123) →
       (∀ v, parse l = .ok v →
          (HttpPost.HandleResponse parse p true code).responseData = v ∧
          (HttpPost.HandleResponse parse p true code).base.status = .DONE) ∧
       (∀ e, parse l = .error e →
          (HttpPost.HandleResponse parse p true code).base.status = .ERROR)) ∧
    (∀ c rest, l = c :: rest → ¬(c = 91 ∨ c = 123) →
       (HttpPost.HandleResponse parse p true code).responseData = .str l ∧
       (HttpPost.HandleResponse parse p true code).base.status = .DONE) := by
  have hresp : p.responseBytes = l := by
    simp only [HttpPost.responseBytes, hbuf, hsz, Option.getD_some]
    rw [List.takeD_eq_take 0 le_rfl, List.take_length]
  refine ⟨hresp, ?_, ?_, ?_⟩
  · intro hl
    unfold HttpPost.HandleResponse
    rw [hresp, hl]
    simp [HttpRequest.HandleResponse]
  · intro c rest hl hc
    constructor
    · intro v hv
      unfold HttpPost.HandleResponse
      rw [hresp, hl]
      rw [hl] at hv
      rcases hc with h | h <;> subst h <;>
        simp [hv, HttpRequest.HandleResponse]
    · intro e he
      unfold HttpPost.HandleResponse
      rw [hresp, hl]
      rw [hl] at he
      rcases hc with h | h <;> subst h <;>
        simp [he, HttpRequest.HandleResponse]
  · intro c rest hl hc
    push_neg at hc
    unfold HttpPost.HandleResponse
    rw [hresp, hl]
    simp [HttpRequest.HandleResponse, hc.1, hc.2]

/-- Witness for C7 at a concrete post whose accumulated body is the
single byte `o` (111), with a parser that would reject it. -/
theorem C7_post_response_parsing_witness :
    HttpPost.responseBytes
      { HttpPost.init "u" with workerResponseBuffer := some [111], workerResponseSize := 1 }
      = [111] ∧
    (HttpPost.HandleResponse (fun _ => .error "not json")
      { HttpPost.init "u" with workerResponseBuffer := some [111], workerResponseSize := 1 }
      true 200).responseData = .str [111] ∧
    (HttpPost.HandleResponse (fun _ => .error "not json")
      { HttpPost.init "u" with workerResponseBuffer := some [111], workerResponseSize := 1 }
      true 200).base.status = .DONE := by
  have h := C7_post_response_parsing (fun _ => .error "not json")
    { HttpPost.init "u" with workerResponseBuffer := some [111], workerResponseSize := 1 }
    [111] 200 rfl rfl
  exact ⟨h.1, (h.2.2.2 111 [] rfl (by decide)).1, (h.2.2.2 111 [] rfl (by decide)).2⟩

/-! ## Filesystem lemmas (for claim C5) -/

/-- A filter keeping everything a matching search would return commutes
away under `find?`. -/
theorem find?_filter_imp {α : Type} (l : List α) (p q : α → Bool)
    (h : ∀ a, q a = true → p a = true) : (l.filter p).find? q = l.find? q := by
  induction l with
  | nil => rfl
  | cons a l ih =>
    cases hp : p a
    · have hq : q a = false := by
        cases hqa : q a
        · rfl
        · rw [h a hqa] at hp; cases hp
      simp [List.filter_cons, hp, List.find?_cons, hq, ih]
    · cases hq : q a
      · simp [List.filter_cons, hp, List.find?_cons, hq, ih]
      · simp [List.filter_cons, hp, List.find?_cons, hq]

/-- A filter excluding everything a search would match makes the search
fail. -/
theorem find?_filter_none {α : Type} (l : List α) (p q : α → Bool)
    (h : ∀ a, q a = true → p a = false) : (l.filter p).find? q = none := by
  induction l with
  | nil => rfl
  | cons a l ih =>
    cases hp : p a
    · simp [List.filter_cons, hp, ih]
    · have hq : q a = false := by
        cases hqa : q a
        · rfl
        · rw [h a hqa] at hp; cases hp
      simp [List.filter_cons, hp, List.find?_cons, hq, ih]

theorem read_write_self (fs : FileSys) (p : String) (c : List Nat) :
    (fs.write p c).read p = some c := by
  unfold FileSys.read FileSys.write
  rw [List.find?_cons_of_pos _ (by simp)]

theorem read_write_ne (fs : FileSys) (p q : String) (c : List Nat) (h : q ≠ p) :
    (fs.write p c).read q = fs.read q := by
  unfold FileSys.read FileSys.write
  rw [List.find?_cons_of_neg _ (by simpa using Ne.symm h),
      find?_filter_imp _ _ _ (fun a ha => ?_)]
  simp only [decide_eq_true_eq] at ha ⊢
  rw [ha]; exact h

theorem read_delete_self (fs : FileSys) (p : String) :
    (fs.delete p).read p = none := by
  unfold FileSys.read FileSys.delete
  rw [find?_filter_none _ _ _ (fun a ha => ?_)]
  simp only [decide_eq_true_eq] at ha
  simp [ha]

theorem read_delete_ne (fs : FileSys) (p q : String) (h : q ≠ p) :
    (fs.delete p).read q = fs.read q := by
  unfold FileSys.read FileSys.delete
  rw [find?_filter_imp _ _ _ (fun a ha => ?_)]
  simp only [decide_eq_true_eq] at ha ⊢
  rw [ha]; exact h

theorem read_rename_dst (fs : FileSys) (src dst : String) (c : List Nat)
    (hsrc : fs.read src = some c) :
    (fs.rename src dst).read dst = some c := by
  unfold FileSys.rename
  rw [hsrc]
  unfold FileSys.read
  rw [List.find?_cons_of_pos _ (by simp)]

theorem read_rename_src (fs : FileSys) (src dst : String) (c : List Nat)
    (hsrc : fs.read src = some c) (hne : src ≠ dst) :
    (fs.rename src dst).read src = none := by
  unfold FileSys.rename
  rw [hsrc]
  unfold FileSys.read
  rw [List.find?_cons_of_neg _ (by simpa using Ne.symm hne),
      find?_filter_none _ _ _ (fun a ha => ?_)]
  simp only [decide_eq_true_eq] at ha
  simp [ha]

theorem read_rename_other (fs : FileSys) (src dst q : String) (c : List Nat)
    (hsrc : fs.read src = some c) (h1 : q ≠ src) (h2 : q ≠ dst) :
    (fs.rename src dst).read q = fs.read q := by
  unfold FileSys.rename
  rw [hsrc]
  unfold FileSys.read
  rw [List.find?_cons_of_neg _ (by simpa using Ne.symm h2),
      find?_filter_imp _ _ _ (fun a ha => ?_)]
  simp only [decide_eq_true_eq] at ha ⊢
  rw [ha]; exact ⟨h1, h2⟩

theorem read_append_self (fs : FileSys) (p : String) (bytes : List Nat) :
    (fs.append p bytes).read p = some ((fs.read p).getD [] ++ bytes) := by
  unfold FileSys.append
  exact read_write_self _ _ _

theorem read_append_ne (fs : FileSys) (p q : String) (bytes : List Nat) (h : q ≠ p) :
    (fs.append p bytes).read q = fs.read q := by
  unfold FileSys.append
  exact read_write_ne _ _ _ _ h

theorem appendAll_read_self (p : String) :
    ∀ (chunks : List (List Nat)) (fs : FileSys) (c : List Nat),
      fs.read p = some c →
      (appendAll fs p chunks).read p = some (c ++ chunks.flatten) := by
  intro chunks
  induction chunks with
  | nil => intro fs c h; simpa [appendAll] using h
  | cons ch rest ih =>
    intro fs c h
    have h1 : (fs.append p ch).read p = some (c ++ ch) := by
      rw [read_append_self, h]; rfl
    have h2 := ih (fs.append p ch) (c ++ ch) h1
    simpa [appendAll, List.flatten_cons, List.append_assoc] using h2

theorem appendAll_read_ne (p q : String) (h : q ≠ p) :
    ∀ (chunks : List (List Nat)) (fs : FileSys),
      (appendAll fs p chunks).read q = fs.read q := by
  intro chunks
  induction chunks with
  | nil => intro fs; rfl
  | cons ch rest ih =>
    intro fs
    have h2 := ih (fs.append p ch)
    simp only [appendAll, List.foldl_cons] at h2 ⊢
    rw [h2, read_append_ne _ _ _ _ h]

/-- No string equals itself extended by a nonempty suffix; in particular
the destination path differs from the `.tmp` path. -/
theorem ne_append_tmp (s : String) : s ≠ s ++ ".tmp" := by
  intro h
  have hlen := congrArg String.length h
  rw [String.length_append, show (".tmp" : String).length = 4 from rfl] at hlen
  omega

/-- `hasFile` is the defined-ness of `read`. -/
theorem hasFile_eq_isSome (fs : FileSys) (p : String) :
    fs.hasFile p = (fs.read p).isSome := by
  unfold FileSys.hasFile FileSys.read
  cases h : fs.files.find? (fun pr => pr.1 = p) <;> simp [h]

/-! ## Download-transfer lemmas (for claim C5) -/

/-- With the temporary file already open, feeding chunks appends each in
order and cannot fail. -/
theorem runChunks_open (dl : HttpDownload) (h : dl.tmpOpen = true) :
    ∀ (chunks : List (List Nat)) (fs : FileSys),
      dl.runChunks fs chunks = .ok (dl, appendAll fs dl.tmpPath chunks) := by
  intro chunks
  induction chunks with
  | nil => intro fs; rfl
  | cons c rest ih =>
    intro fs
    rw [HttpDownload.runChunks]
    simp only [HttpDownload.Worker_HandleData, h, Bool.not_true, Bool.false_eq_true,
      if_false]
    show dl.runChunks (fs.append dl.tmpPath c) rest = _
    simpa [appendAll] using ih (fs.append dl.tmpPath c)

/-! ## Claim C5 — Download temp-file finalization -/

/-- Claim C5 is FALSE as stated on a transport-success outcome whose HTTP
status is in [200, 400) but is not 200: with status 204, the `.tmp` file
is deleted and the destination is not created (as the claim says), but
`HandleResponse` receives `success = (CURLE_OK && 204 < 400) = true`, so
the request ends `DONE` — the claim says every non-(success ∧ 200)
outcome ends in `Error`. -/
theorem C5_counterexample :
    scenarioStatus (downloadScenario fsEmpty "u" "d/f" [] [[104, 105]] true 204)
      = some .DONE ∧
    scenarioHasFile "d/f" (downloadScenario fsEmpty "u" "d/f" [] [[104, 105]] true 204)
      = some false ∧
    scenarioHasFile "d/f.tmp" (downloadScenario fsEmpty "u" "d/f" [] [[104, 105]] true 204)
      = some false ∧
    Status.DONE ≠ Status.ERROR :=
  ⟨rfl, rfl, rfl, by decide⟩

/-- Claim C5, amended: for every Download transfer that received at least
one body chunk (so the `.tmp` file exists), the `.tmp` file is renamed to
the destination exactly when the transport succeeded and the status was
200; in every other outcome the `.tmp` file is deleted and the
destination is not created. The request ends in `Error` exactly when the
transport failed or the status was ≥ 400 (carrying the real status code);
a transport-success status in [200,400) other than 200 ends `Done` even
though the downloaded bytes were discarded. -/
theorem C5_download_finalize_amended
    (fs : FileSys) (url dest : String) (rh : RHList) (chunks : List (List Nat))
    (resultOK : Bool) (code : Int)
    (hopen : fs.openFails (dest ++ ".tmp") = false)
    (hdest : fs.read dest = none)
    (hchunks : chunks ≠ []) :
    ∃ dl fs1, downloadScenario fs url dest rh chunks resultOK code = .ok (dl, fs1) ∧
      dl.base.status = (if resultOK && decide (code < 400) then .DONE else .ERROR) ∧
      fs1.read (dest ++ ".tmp") = none ∧
      fs1.read dest =
        (if resultOK && (code == 200) then some chunks.flatten else none) := by
  obtain ⟨c0, rest, rfl⟩ : ∃ c0 rest, chunks = c0 :: rest := by
    cases chunks with
    | nil => exact absurd rfl hchunks
    | cons a b => exact ⟨a, b, rfl⟩
  have hnedt : dest ≠ dest ++ ".tmp" := ne_append_tmp dest
  have hnetd : dest ++ ".tmp" ≠ dest := Ne.symm hnedt
  set fs0 := (HttpDownload.init fs url dest).2 with hfs0def
  have hinit : HttpDownload.init fs url dest =
      ({ base := { method := .GET, url := url, status := .PENDING,
                   requestHeaders := [], responseHeaders := [] },
         destFile := dest, tmpOpen := false }, fs0) := by
    rw [hfs0def, ← init_fst fs url dest]
  have hOF0 : fs0.openFails = fs.openFails := by
    rw [hfs0def]
    exact (init_files fs url dest).2
  have hRead0 : ∀ q, fs0.read q = fs.read q := by
    intro q
    have hfiles : fs0.files = fs.files := by
      rw [hfs0def]
      exact (init_files fs url dest).1
    unfold FileSys.read
    rw [hfiles]
  -- the download object as dispatched (after HandleRequestStart)
  set b0 : HttpRequest :=
    { method := .GET, url := url, status := .SENDING,
      requestHeaders := [], responseHeaders := [] } with hb0
  set dl0 : HttpDownload := { base := b0, destFile := dest, tmpOpen := false } with hdl0
  set dl1 : HttpDownload := { base := b0, destFile := dest, tmpOpen := true } with hdl1
  -- first chunk: opens the temp file, writes the chunk
  have hstep1 : dl0.Worker_HandleData fs0 c0 =
      .ok (dl1, (fs0.write (dest ++ ".tmp") []).append (dest ++ ".tmp") c0, c0.length) := by
    simp [HttpDownload.Worker_HandleData, FileSys.openW, HttpDownload.tmpPath,
      hdl0, hdl1, hOF0, hopen]
  -- remaining chunks: appended in order
  have hrun : dl0.runChunks fs0 (c0 :: rest) =
      .ok (dl1, appendAll ((fs0.write (dest ++ ".tmp") []).append (dest ++ ".tmp") c0)
        (dest ++ ".tmp") rest) := by
    rw [HttpDownload.runChunks, hstep1]
    show dl1.runChunks _ rest = _
    rw [runChunks_open dl1 rfl]
    rfl
  set fs2 := appendAll ((fs0.write (dest ++ ".tmp") []).append (dest ++ ".tmp") c0)
    (dest ++ ".tmp") rest with hfs2
  -- contents of the temp file and the untouched destination
  have hr1 : fs2.read (dest ++ ".tmp") = some ((c0 :: rest).flatten) := by
    rw [hfs2]
    rw [appendAll_read_self (dest ++ ".tmp") rest _ c0]
    · rfl
    · rw [read_append_self, read_write_self]
      rfl
  have hr2 : fs2.read dest = none := by
    rw [hfs2, appendAll_read_ne _ _ hnedt, read_append_ne _ _ _ _ hnedt,
      read_write_ne _ _ _ _ hnedt, hRead0, hdest]
  -- the scenario reduces to the finalization of the filled temp file
  have hscen : downloadScenario fs url dest rh (c0 :: rest) resultOK code =
      (let p := dl1.Worker_HandleDone fs2 resultOK code
       let dl2 := p.1
       let b3 := (dl2.base.HandleResponseHeaders rh).HandleResponse
         (resultOK && decide (code < 400))
       Except.ok ({ dl2 with base := b3 }, p.2)) := by
    unfold downloadScenario
    rw [hinit]
    show ((match dl0.runChunks fs0 (c0 :: rest) with
      | .error e => .error e
      | .ok (dl1x, fs1x) =>
        let (dl2, fs2x) := dl1x.Worker_HandleDone fs1x resultOK code
        let b3 := (dl2.base.HandleResponseHeaders rh).HandleResponse
          (resultOK && decide (code < 400))
        Except.ok ({ dl2 with base := b3 }, fs2x)) :
      Except String (HttpDownload × FileSys)) = _
    rw [hrun]
  -- assemble the scenario
  cases hcase : resultOK && (code == 200) with
  | true =>
    have hdone : dl1.Worker_HandleDone fs2 resultOK code =
        ({ base := b0, destFile := dest, tmpOpen := false },
         fs2.rename (dest ++ ".tmp") dest) := by
      simp only [HttpDownload.Worker_HandleDone, hdl1, HttpDownload.tmpPath, hcase]
      simp
    refine ⟨{ base := (b0.HandleResponseHeaders rh).HandleResponse
                (resultOK && decide (code < 400)),
              destFile := dest, tmpOpen := false },
            fs2.rename (dest ++ ".tmp") dest, ?_, ?_, ?_, ?_⟩
    · rw [hscen, hdone]
    · simp [HttpRequest.HandleResponse]
    · exact read_rename_src fs2 _ _ _ hr1 hnetd
    · rw [read_rename_dst fs2 _ _ _ hr1]
      simp
  | false =>
    have hdone : dl1.Worker_HandleDone fs2 resultOK code =
        ({ base := b0, destFile := dest, tmpOpen := false },
         fs2.delete (dest ++ ".tmp")) := by
      simp only [HttpDownload.Worker_HandleDone, hdl1, HttpDownload.tmpPath, hcase]
      simp
    refine ⟨{ base := (b0.HandleResponseHeaders rh).HandleResponse
                (resultOK && decide (code < 400)),
              destFile := dest, tmpOpen := false },
            fs2.delete (dest ++ ".tmp"), ?_, ?_, ?_, ?_⟩
    · rw [hscen, hdone]
    · simp [HttpRequest.HandleResponse]
    · exact read_delete_self fs2 _
    · rw [read_delete_ne _ _ _ hnedt, hr2]
      simp

/-- Witness for C5: a 404 download with one received chunk — the `.tmp`
file is gone, the destination was never created, and the request ends in
`ERROR`. -/
theorem C5_download_finalize_amended_witness :
    ∃ dl fs1, downloadScenario fsEmpty "u" "d/f" [] [[104, 105]] true 404 = .ok (dl, fs1) ∧
      dl.base.status = (if true && decide ((404 : Int) < 400) then .DONE else .ERROR) ∧
      fs1.read ("d/f" ++ ".tmp") = none ∧
      fs1.read "d/f" =
        (if true && ((404 : Int) == 200) then some ([[104, 105]] : List (List Nat)).flatten
         else none) :=
  C5_download_finalize_amended fsEmpty "u" "d/f" [] [[104, 105]] true 404 rfl rfl (by decide)

/-! ## HttpClient::Update loop lemmas (for claims C1, C3, C8) -/

theorem runPhase1_cons_fst (idx : Nat) (acc : Phase1Acc) (w : HttpClient_Worker)
    (ws : List HttpClient_Worker) :
    (runPhase1 idx acc (w :: ws)).1 =
      (updateWorkerStep idx acc w).1 ::
        (runPhase1 (idx + 1) (updateWorkerStep idx acc w).2 ws).1 := rfl

theorem runPhase1_cons_snd (idx : Nat) (acc : Phase1Acc) (w : HttpClient_Worker)
    (ws : List HttpClient_Worker) :
    (runPhase1 idx acc (w :: ws)).2 =
      (runPhase1 (idx + 1) (updateWorkerStep idx acc w).2 ws).2 := rfl

/-- The first loop transforms each worker structurally, independent of the
threaded accumulator. -/
theorem updateWorkerStep_worker (idx : Nat) (acc : Phase1Acc) (w : HttpClient_Worker) :
    (updateWorkerStep idx acc w).1 = transformWorker w := by
  cases hst : w.status <;> cases hpr : w.pRequest <;>
    simp [updateWorkerStep, transformWorker, hst, hpr] <;> (try split) <;> rfl

theorem runPhase1_workers :
    ∀ (ws : List HttpClient_Worker) (idx : Nat) (acc : Phase1Acc),
      (runPhase1 idx acc ws).1 = ws.map transformWorker := by
  intro ws
  induction ws with
  | nil => intro idx acc; rfl
  | cons w ws ih =>
    intro idx acc
    rw [runPhase1_cons_fst, updateWorkerStep_worker, ih, List.map_cons]

/-- Effect of one loop iteration on `p_free_worker`. -/
theorem updateWorkerStep_freeIdx (idx : Nat) (acc : Phase1Acc) (w : HttpClient_Worker) :
    (updateWorkerStep idx acc w).2.freeIdx =
      if isFreeWorker w then acc.freeIdx.orElse (fun _ => some idx) else acc.freeIdx := by
  cases hst : w.status <;> cases hpr : w.pRequest <;>
    simp [updateWorkerStep, isFreeWorker, hst, hpr] <;> (try split) <;> rfl

theorem runPhase1_freeIdx_some :
    ∀ (ws : List HttpClient_Worker) (idx j : Nat) (acc : Phase1Acc),
      acc.freeIdx = some j → (runPhase1 idx acc ws).2.freeIdx = some j := by
  intro ws
  induction ws with
  | nil => intro idx j acc h; exact h
  | cons w ws ih =>
    intro idx j acc h
    rw [runPhase1_cons_snd]
    apply ih
    rw [updateWorkerStep_freeIdx, h]
    split <;> rfl

/-- The loop's free-worker pointer is the first free worker in array
order (shifted by the starting index). -/
theorem runPhase1_freeIdx_none :
    ∀ (ws : List HttpClient_Worker) (idx : Nat) (acc : Phase1Acc),
      acc.freeIdx = none →
      (runPhase1 idx acc ws).2.freeIdx = (firstFreeIdx ws).map (· + idx) := by
  intro ws
  induction ws with
  | nil => intro idx acc h; simpa [firstFreeIdx] using h
  | cons w ws ih =>
    intro idx acc h
    rw [runPhase1_cons_snd]
    cases hfree : isFreeWorker w
    · have hkeep : (updateWorkerStep idx acc w).2.freeIdx = none := by
        rw [updateWorkerStep_freeIdx, hfree, h]; rfl
      rw [ih _ _ hkeep]
      simp only [firstFreeIdx, hfree, Bool.false_eq_true, if_false]
      cases firstFreeIdx ws <;> simp <;> omega
    · have hset : (updateWorkerStep idx acc w).2.freeIdx = some idx := by
        rw [updateWorkerStep_freeIdx, hfree, h]; rfl
      rw [runPhase1_freeIdx_some ws _ idx _ hset]
      simp [firstFreeIdx, hfree]

/-- Each loop iteration only appends to the event list. -/
theorem updateWorkerStep_events (idx : Nat) (acc : Phase1Acc) (w : HttpClient_Worker) :
    ∃ tail, (updateWorkerStep idx acc w).2.events = acc.events ++ tail := by
  unfold updateWorkerStep
  repeat' split
  all_goals (try simp only [])
  all_goals
    first
      | exact ⟨[], (List.append_nil _).symm⟩
      | exact ⟨_, rfl⟩
      | exact ⟨_, by rw [List.append_assoc, List.append_assoc]⟩

theorem runPhase1_events :
    ∀ (ws : List HttpClient_Worker) (idx : Nat) (acc : Phase1Acc),
      ∃ tail, (runPhase1 idx acc ws).2.events = acc.events ++ tail := by
  intro ws
  induction ws with
  | nil => intro idx acc; exact ⟨[], by simp [runPhase1]⟩
  | cons w ws ih =>
    intro idx acc
    rw [runPhase1_cons_snd]
    obtain ⟨t1, h1⟩ := updateWorkerStep_events idx acc w
    obtain ⟨t2, h2⟩ := ih (idx + 1) (updateWorkerStep idx acc w).2
    exact ⟨t1 ++ t2, by rw [h2, h1, List.append_assoc]⟩

theorem runPhase1_events_mem (ws : List HttpClient_Worker) (idx : Nat) (acc : Phase1Acc)
    (e : UpdateEvent) (h : e ∈ acc.events) : e ∈ (runPhase1 idx acc ws).2.events := by
  obtain ⟨t, ht⟩ := runPhase1_events ws idx acc
  rw [ht]
  exact List.mem_append_left _ h

/-- A loop iteration on a worker not holding request `rid` leaves `rid`'s
store entry alone. -/
theorem updateWorkerStep_store_other (idx : Nat) (acc : Phase1Acc) (w : HttpClient_Worker)
    (rid : Nat) (h : w.pRequest ≠ some rid) :
    (updateWorkerStep idx acc w).2.requests rid = acc.requests rid := by
  cases hpr : w.pRequest with
  | none =>
    unfold updateWorkerStep
    rw [hpr]
    repeat' split
    all_goals simp_all
  | some i =>
    have hne : ¬ rid = i := fun hh => h (by rw [hpr, hh])
    unfold updateWorkerStep
    rw [hpr]
    repeat' split
    all_goals (try simp only [])
    all_goals simp_all [updateReq, hne, ite_apply]

theorem runPhase1_store_other :
    ∀ (ws : List HttpClient_Worker) (idx : Nat) (acc : Phase1Acc) (rid : Nat),
      (∀ wj ∈ ws, wj.pRequest ≠ some rid) →
      (runPhase1 idx acc ws).2.requests rid = acc.requests rid := by
  intro ws
  induction ws with
  | nil => intro idx acc rid _; rfl
  | cons w0 ws ih =>
    intro idx acc rid h
    rw [runPhase1_cons_snd, ih _ _ _ (fun wj hm => h wj (List.mem_cons_of_mem _ hm)),
      updateWorkerStep_store_other _ _ _ _ (h w0 (List.mem_cons_self w0 ws))]

/-- The loop iteration on a `DONE` worker leaves its request's status as
`HandleResponse(success)` computes it. -/
theorem updateWorkerStep_store_done (idx : Nat) (acc : Phase1Acc) (w : HttpClient_Worker)
    (rid : Nat) (h1 : w.status = .DONE) (h2 : w.pRequest = some rid) :
    ((updateWorkerStep idx acc w).2.requests rid).status =
      (if (w.result == CURLE_OK) && decide (w.responseStatusCode < 400)
       then Status.DONE else Status.ERROR) := by
  simp [updateWorkerStep, h1, h2, updateReq, HttpRequest.HandleResponse]

/-- The loop iteration on a `DONE` worker emits the
`HandleResponse(success, code)` invocation event. -/
theorem updateWorkerStep_done_event (idx : Nat) (acc : Phase1Acc) (w : HttpClient_Worker)
    (rid : Nat) (h1 : w.status = .DONE) (h2 : w.pRequest = some rid) :
    UpdateEvent.handleResponseCalled rid
        ((w.result == CURLE_OK) && decide (w.responseStatusCode < 400))
        w.responseStatusCode
      ∈ (updateWorkerStep idx acc w).2.events := by
  simp [updateWorkerStep, h1, h2]

/-- A loop iteration on a worker not holding `rid` does not remove `rid`'s
registered callbacks. -/
theorem updateWorkerStep_cbs_keep (idx : Nat) (acc : Phase1Acc) (w : HttpClient_Worker)
    (rid cb : Nat) (h : w.pRequest ≠ some rid)
    (hmem : (rid, cb) ∈ acc.pendingCallbacks) :
    (rid, cb) ∈ (updateWorkerStep idx acc w).2.pendingCallbacks := by
  cases hpr : w.pRequest with
  | none =>
    unfold updateWorkerStep
    rw [hpr]
    repeat' split
    all_goals first | exact hmem | simp_all
  | some i =>
    have hne : ¬ rid = i := fun hh => h (by rw [hpr, hh])
    unfold updateWorkerStep
    rw [hpr]
    repeat' split
    all_goals (try simp only [])
    all_goals simp_all [List.mem_filter]

/-- The loop iteration on a `DONE` worker fires each callback registered
for its request. -/
theorem updateWorkerStep_cb_event (idx : Nat) (acc : Phase1Acc) (w : HttpClient_Worker)
    (rid cb : Nat) (h1 : w.status = .DONE) (h2 : w.pRequest = some rid)
    (hmem : (rid, cb) ∈ acc.pendingCallbacks) :
    UpdateEvent.callbackCalled cb rid ∈ (updateWorkerStep idx acc w).2.events := by
  simp [updateWorkerStep, h1, h2, List.mem_append, List.mem_map]
  exact Or.inr ⟨rid, cb, ⟨hmem, rfl⟩, rfl, rfl⟩

/-- The loop emits `HandleResponse` for a `DONE` worker, and its request's
final status is determined by the success formula, provided no other
worker holds the same request. -/
theorem runPhase1_done_facts :
    ∀ (ws : List HttpClient_Worker) (idx : Nat) (acc : Phase1Acc) (i : Nat)
      (w : HttpClient_Worker) (rid : Nat),
      ws[i]? = some w → w.status = .DONE → w.pRequest = some rid →
      (∀ j wj, ws[j]? = some wj → wj.pRequest = some rid → j = i) →
      (UpdateEvent.handleResponseCalled rid
          ((w.result == CURLE_OK) && decide (w.responseStatusCode < 400))
          w.responseStatusCode ∈ (runPhase1 idx acc ws).2.events) ∧
      ((runPhase1 idx acc ws).2.requests rid).status =
        (if (w.result == CURLE_OK) && decide (w.responseStatusCode < 400)
         then Status.DONE else Status.ERROR) ∧
      (∀ cb, (rid, cb) ∈ acc.pendingCallbacks →
        UpdateEvent.callbackCalled cb rid ∈ (runPhase1 idx acc ws).2.events) := by
  intro ws
  induction ws with
  | nil => intro idx acc i w rid hw; simp at hw
  | cons w0 ws ih =>
    intro idx acc i w rid hw h1 h2 huniq
    cases i with
    | zero =>
      rw [List.getElem?_cons_zero] at hw
      have hww : w0 = w := by injection hw
      subst hww
      have hrest : ∀ wj ∈ ws, wj.pRequest ≠ some rid := by
        intro wj hmem hpr
        obtain ⟨j, hjlt, hj⟩ := List.mem_iff_getElem.mp hmem
        have hj2 : ws[j]? = some wj := by
          rw [List.getElem?_eq_getElem hjlt, hj]
        have := huniq (j + 1) wj (by simpa using hj2) hpr
        omega
      rw [runPhase1_cons_snd]
      refine ⟨?_, ?_, ?_⟩
      · exact runPhase1_events_mem _ _ _ _ (updateWorkerStep_done_event idx acc w0 rid h1 h2)
      · rw [runPhase1_store_other ws _ _ rid hrest]
        exact updateWorkerStep_store_done idx acc w0 rid h1 h2
      · intro cb hcb
        exact runPhase1_events_mem _ _ _ _ (updateWorkerStep_cb_event idx acc w0 rid cb h1 h2 hcb)
    | succ n =>
      rw [List.getElem?_cons_succ] at hw
      have h0 : w0.pRequest ≠ some rid := by
        intro hpr
        have := huniq 0 w0 (by simp) hpr
        omega
      have huniq2 : ∀ j wj, ws[j]? = some wj → wj.pRequest = some rid → j = n := by
        intro j wj hj hpr
        have := huniq (j + 1) wj (by simpa using hj) hpr
        omega
      rw [runPhase1_cons_snd]
      have hmain := ih (idx + 1) (updateWorkerStep idx acc w0).2 n w rid hw h1 h2 huniq2
      refine ⟨hmain.1, hmain.2.1, ?_⟩
      intro cb hcb
      exact hmain.2.2 cb (updateWorkerStep_cbs_keep idx acc w0 rid cb h0 hcb)

/-- Every event the worker loop produced is among the events of the full
`Update` call. -/
theorem update_events_sup (s : HttpClient) (e : UpdateEvent)
    (h : e ∈ (runPhase1 0 ⟨s.requests, s.pendingCallbacks, [], none⟩ s.workers).2.events) :
    e ∈ (s.Update).2 := by
  unfold HttpClient.Update
  (try simp only [])
  split
  · split
    · split
      · exact List.mem_append_left _ h
      · exact h
    · exact List.mem_append_left _ h
  · exact h

/-- `Update` leaves the store entry of a request that is not in the
pending queue exactly as the worker loop left it. -/
theorem update_store_pres (s : HttpClient) (rid : Nat) (hq : rid ∉ s.pendingRequests) :
    (s.Update).1.requests rid =
      (runPhase1 0 ⟨s.requests, s.pendingCallbacks, [], none⟩ s.workers).2.requests rid := by
  unfold HttpClient.Update
  (try simp only [])
  split
  · rename_i i rid0 rest hfi hpq
    have hne : ¬ rid = rid0 := by
      rw [hpq] at hq
      simp [List.mem_cons] at hq
      exact hq.1
    split
    · split
      · simp [updateReq, hne]
      · rfl
    · rfl
  · rfl

/-! ## Claim C3 — error classification of completed transfers -/

/-- Claim C3: for a completed transfer (worker `DONE` holding request
`rid`, the only worker holding it, the request no longer queued), `Update`
invokes the request's final response handling with
`success = (result == CURLE_OK) && (status < 400)` — so `success` is false
exactly when the transport result is not OK or the HTTP status is ≥ 400 —
and the request ends `DONE`/`ERROR` accordingly. Instantiating
`responseStatusCode = 0` (a transport failure with no response, which is
what libcurl reports then) gives `Error` with code 0 in the invocation;
instantiating a status ≥ 400 with `result = CURLE_OK` gives `Error`
carrying that real status code. -/
theorem C3_error_classification
    (s : HttpClient) (i : Nat) (w : HttpClient_Worker) (rid : Nat)
    (hw : s.workers[i]? = some w)
    (hst : w.status = .DONE)
    (hreq : w.pRequest = some rid)
    (huniq : ∀ j wj, s.workers[j]? = some wj → wj.pRequest = some rid → j = i)
    (hq : rid ∉ s.pendingRequests) :
    (UpdateEvent.handleResponseCalled rid
        ((w.result == CURLE_OK) && decide (w.responseStatusCode < 400))
        w.responseStatusCode ∈ (s.Update).2) ∧
    (((w.result == CURLE_OK) && decide (w.responseStatusCode < 400)) = false ↔
      (w.result ≠ CURLE_OK ∨ 400 ≤ w.responseStatusCode)) ∧
    ((s.Update).1.requests rid).status =
      (if (w.result == CURLE_OK) && decide (w.responseStatusCode < 400)
       then Status.DONE else Status.ERROR) := by
  have hmain := runPhase1_done_facts s.workers 0
    ⟨s.requests, s.pendingCallbacks, [], none⟩ i w rid hw hst hreq huniq
  refine ⟨update_events_sup s _ hmain.1, ?_, ?_⟩
  · constructor
    · intro hf
      rcases Bool.and_eq_false_iff.mp hf with h | h
      · exact Or.inl (by simpa using h)
      · exact Or.inr (by simpa using h)
    · intro hcases
      rcases hcases with h | h
      · exact Bool.and_eq_false_iff.mpr (Or.inl (by simpa using h))
      · exact Bool.and_eq_false_iff.mpr (Or.inr (by simpa using h))
  · rw [update_store_pres s rid hq]
    exact hmain.2.1

/-- Witness for C3: a one-worker client whose transfer failed at the
transport level (`result = 7`, no response, status code 0): the response
handling is invoked with `success = false` and code 0, and the request
ends in `ERROR`. -/
theorem C3_error_classification_witness :
    (UpdateEvent.handleResponseCalled 1
        (((7 : Nat) == CURLE_OK) && decide ((0 : Int) < 400)) 0
      ∈ (HttpClient.Update
          ⟨[{ status := .DONE, pRequest := some 1, cancelAndQuit := false,
              responseHeadersDone := true, pResponseHeaders := [], result := 7,
              responseStatusCode := 0 }], [], [],
            fun _ => { method := .GET, url := "u", status := .SENDING,
                       requestHeaders := [], responseHeaders := [] }⟩).2) ∧
    ((((7 : Nat) == CURLE_OK) && decide ((0 : Int) < 400)) = false ↔
      ((7 : Nat) ≠ CURLE_OK ∨ (400 : Int) ≤ 0)) ∧
    ((HttpClient.Update
          ⟨[{ status := .DONE, pRequest := some 1, cancelAndQuit := false,
              responseHeadersDone := true, pResponseHeaders := [], result := 7,
              responseStatusCode := 0 }], [], [],
            fun _ => { method := .GET, url := "u", status := .SENDING,
                       requestHeaders := [], responseHeaders := [] }⟩).1.requests 1).status =
      (if ((7 : Nat) == CURLE_OK) && decide ((0 : Int) < 400)
       then Status.DONE else Status.ERROR) := by
  have h := C3_error_classification
    ⟨[{ status := .DONE, pRequest := some 1, cancelAndQuit := false,
        responseHeadersDone := true, pResponseHeaders := [], result := 7,
        responseStatusCode := 0 }], [], [],
      fun _ => { method := .GET, url := "u", status := .SENDING,
                 requestHeaders := [], responseHeaders := [] }⟩
    0
    { status := .DONE, pRequest := some 1, cancelAndQuit := false,
      responseHeadersDone := true, pResponseHeaders := [], result := 7,
      responseStatusCode := 0 }
    1 rfl rfl rfl
    (by
      intro j wj hj hpr
      match j with
      | 0 => rfl
      | n + 1 => simp at hj)
    (by simp)
  exact h

/-! ## Claim C1 — dispatch of pending requests to free workers -/

theorem firstFreeIdx_spec :
    ∀ (ws : List HttpClient_Worker) (i : Nat),
      firstFreeIdx ws = some i → ∃ w, ws[i]? = some w ∧ isFreeWorker w = true := by
  intro ws
  induction ws with
  | nil => intro i h; simp [firstFreeIdx] at h
  | cons w ws ih =>
    intro i h
    cases hf : isFreeWorker w
    · simp only [firstFreeIdx, hf, Bool.false_eq_true, if_false] at h
      cases hfi : firstFreeIdx ws with
      | none => rw [hfi] at h; cases h
      | some j =>
        rw [hfi] at h
        obtain rfl : j + 1 = i := by injection h
        obtain ⟨w1, hw1, hfree1⟩ := ih j hfi
        exact ⟨w1, by simpa using hw1, hfree1⟩
    · simp only [firstFreeIdx, hf, if_true] at h
      obtain rfl : 0 = i := by injection h
      exact ⟨w, by simp, hf⟩

theorem updateWorkerStep_countA (idx : Nat) (acc : Phase1Acc) (w : HttpClient_Worker) :
    ((updateWorkerStep idx acc w).2.events).countP isAssignedEv
      = acc.events.countP isAssignedEv := by
  unfold updateWorkerStep
  repeat' split
  all_goals (try simp only [])
  all_goals
    simp [List.countP_append, List.countP_cons, List.countP_map, isAssignedEv,
      Function.comp]

theorem runPhase1_countA :
    ∀ (ws : List HttpClient_Worker) (idx : Nat) (acc : Phase1Acc),
      ((runPhase1 idx acc ws).2.events).countP isAssignedEv
        = acc.events.countP isAssignedEv := by
  intro ws
  induction ws with
  | nil => intro idx acc; rfl
  | cons w ws ih =>
    intro idx acc
    rw [runPhase1_cons_snd, ih, updateWorkerStep_countA]

/-- `Update` performs at most one new assignment per call, over the whole
worker pool. -/
theorem update_countA (s : HttpClient) : (s.Update).2.countP isAssignedEv ≤ 1 := by
  have h0 : ((runPhase1 0 ⟨s.requests, s.pendingCallbacks, [], none⟩
      s.workers).2.events).countP isAssignedEv = 0 := by
    rw [runPhase1_countA]; rfl
  unfold HttpClient.Update
  (try simp only [])
  split
  · split
    · split
      · simp [List.countP_append, h0, List.countP_cons, isAssignedEv, apply_ite isAssignedEv]
        split
        all_goals
          first
            | rfl
            | (rename_i heq; split at heq <;> simp at heq)
      · simp [h0]
    · simp [List.countP_append, h0, List.countP_cons, isAssignedEv]
  · simp [h0]

/-- Claim C1 is FALSE as stated: with two free (UNUSED) workers and two
PENDING requests queued, one `Update` call pops and assigns only ONE
request — the head goes to worker 0, worker 1 stays `UNUSED` with no
request, and the queue still holds the second request. The claim's
"for each free worker ... the head is popped" would require both to be
dispatched. -/
theorem C1_counterexample :
    (List.countP isFreeWorker
      [HttpClient_Worker.init, HttpClient_Worker.init] = 2) ∧
    (HttpClient.Update
        ⟨[HttpClient_Worker.init, HttpClient_Worker.init], [1, 2], [],
          fun _ => { method := .GET, url := "u", status := .PENDING,
                     requestHeaders := [], responseHeaders := [] }⟩).1.pendingRequests
      = [2] ∧
    (HttpClient.Update
        ⟨[HttpClient_Worker.init, HttpClient_Worker.init], [1, 2], [],
          fun _ => { method := .GET, url := "u", status := .PENDING,
                     requestHeaders := [], responseHeaders := [] }⟩).1.workers[1]?
      = some HttpClient_Worker.init ∧
    isFreeWorker HttpClient_Worker.init = true ∧
    [2] ≠ ([] : List Nat) := by
  refine ⟨by decide, rfl, rfl, rfl, by decide⟩

/-- Claim C1, amended: on each `Update` call at most ONE pending request
is popped, and only when a free worker exists: the queue is untouched
when no worker is free or the queue is empty; otherwise exactly the head
is popped and offered to the FIRST free worker in array order — a head
cancelled while queued is dropped silently, with no transfer started and
no further request examined that call; a still-pending head is assigned
to that worker (`PENDING → SENDING`), whose thread is spawned if the
worker was `UNUSED` and woken if it was `READY`. At most one new
assignment happens per call over the whole pool, not one per free
worker. -/
theorem C1_dispatch_amended (s : HttpClient) :
    ((s.Update).2.countP isAssignedEv ≤ 1) ∧
    ((firstFreeIdx s.workers = none ∨ s.pendingRequests = []) →
       (s.Update).1.pendingRequests = s.pendingRequests) ∧
    (∀ i rid rest, firstFreeIdx s.workers = some i → s.pendingRequests = rid :: rest →
      (∀ wj ∈ s.workers, wj.pRequest ≠ some rid) →
      (s.Update).1.pendingRequests = rest ∧
      ((s.requests rid).status ≠ .PENDING →
        (s.Update).1.workers = s.workers.map transformWorker ∧
        UpdateEvent.droppedCancelled rid ∈ (s.Update).2 ∧
        (s.Update).2.countP isAssignedEv = 0) ∧
      ((s.requests rid).status = .PENDING →
        ∃ w0, s.workers[i]? = some w0 ∧ isFreeWorker w0 = true ∧
          (s.Update).1.workers[i]?
            = some { w0 with pRequest := some rid, status := .ACTIVE } ∧
          ((s.Update).1.requests rid).status = .SENDING ∧
          UpdateEvent.assigned i rid ∈ (s.Update).2 ∧
          (w0.status = .UNUSED → UpdateEvent.spawnedThread i ∈ (s.Update).2) ∧
          (w0.status = .READY → UpdateEvent.wokeWorker i ∈ (s.Update).2))) := by
  refine ⟨update_countA s, ?_, ?_⟩
  · intro hcase
    unfold HttpClient.Update
    (try simp only [])
    split
    · rename_i i0 rid0 rest0 hfi0 hpq0
      exfalso
      rcases hcase with hnone | hnil
      · rw [runPhase1_freeIdx_none _ _ _ rfl, hnone] at hfi0
        cases hfi0
      · rw [hnil] at hpq0
        cases hpq0
    · rfl
  · intro i rid rest hfirst hpend hnoref
    have hfi : (runPhase1 0 ⟨s.requests, s.pendingCallbacks, [], none⟩
        s.workers).2.freeIdx = some i := by
      rw [runPhase1_freeIdx_none _ _ _ rfl, hfirst]
      simp
    have hreqs : (runPhase1 0 ⟨s.requests, s.pendingCallbacks, [], none⟩
        s.workers).2.requests rid = s.requests rid :=
      runPhase1_store_other _ _ _ _ hnoref
    obtain ⟨w0, hw0, hfree⟩ := firstFreeIdx_spec s.workers i hfirst
    have hlen : i < s.workers.length := (List.getElem?_eq_some_iff.mp hw0).1
    have hws1 : (runPhase1 0 ⟨s.requests, s.pendingCallbacks, [], none⟩
        s.workers).1 = s.workers.map transformWorker := runPhase1_workers _ _ _
    have hgetw : (runPhase1 0 ⟨s.requests, s.pendingCallbacks, [], none⟩
        s.workers).1[i]? = some (transformWorker w0) := by
      rw [hws1, List.getElem?_map, hw0]
      rfl
    have htw : transformWorker w0 = { w0 with pRequest := none } := by
      unfold transformWorker isFreeWorker at *
      cases hst : w0.status <;> simp [hst] <;> simp [hst] at hfree
    refine ⟨?_, ?_, ?_⟩
    · unfold HttpClient.Update
      (try simp only [])
      rw [hfi, hpend]
      (try simp only [])
      split <;> [skip; rfl]
      split <;> rfl
    · intro hstat
      unfold HttpClient.Update
      (try simp only [])
      rw [hfi, hpend]
      (try simp only [])
      rw [hreqs, if_neg hstat]
      refine ⟨hws1, ?_, ?_⟩
      · simp
      · rw [List.countP_append, runPhase1_countA]
        simp [isAssignedEv]
    · intro hstat
      refine ⟨w0, hw0, hfree, ?_⟩
      unfold HttpClient.Update
      (try simp only [])
      rw [hfi, hpend]
      (try simp only [])
      rw [hreqs, if_pos hstat, hgetw]
      (try simp only [])
      refine ⟨?_, ?_, ?_, ?_, ?_⟩
      · rw [htw]
        rw [List.getElem?_set_self (by simpa [hws1] using hlen)]
      · simp [updateReq, HttpRequest.HandleRequestStart]
      · simp
      · intro hun
        simp [htw, hun]
      · intro hrdy
        simp [htw, hrdy]

/-- Witness for C1: a one-worker client with one pending request — the
head is popped, assigned to worker 0 (which spawns, being `UNUSED`), and
at most one assignment occurred. -/
theorem C1_dispatch_amended_witness :
    ((c1Client.Update).2.countP isAssignedEv ≤ 1) ∧
    ((c1Client.Update).1.pendingRequests = []) ∧
    (∃ w0, c1Client.workers[0]? = some w0 ∧ isFreeWorker w0 = true ∧
      (c1Client.Update).1.workers[0]?
        = some { w0 with pRequest := some 5, status := .ACTIVE } ∧
      ((c1Client.Update).1.requests 5).status = .SENDING ∧
      UpdateEvent.assigned 0 5 ∈ (c1Client.Update).2 ∧
      (w0.status = .UNUSED → UpdateEvent.spawnedThread 0 ∈ (c1Client.Update).2) ∧
      (w0.status = .READY → UpdateEvent.wokeWorker 0 ∈ (c1Client.Update).2)) := by
  have h := C1_dispatch_amended c1Client
  have h3 := h.2.2 0 5 [] rfl rfl (by decide)
  exact ⟨h.1, h3.1, h3.2.2 rfl⟩

/-! ## Active-download map lemmas (for claim C8) -/

theorem mapLookup_insert_self {α : Type} :
    ∀ (m : List (String × α)) (k : String) (v : α),
      mapLookup (mapInsert m k v) k = some v := by
  intro m k v
  induction m with
  | nil => simp [mapInsert, mapLookup]
  | cons p rest ih =>
    by_cases hk : p.1 = k
    · obtain ⟨k0, v0⟩ := p
      simp only at hk
      simp [mapInsert, mapLookup, hk]
    · obtain ⟨k0, v0⟩ := p
      simp only at hk
      simp [mapInsert, mapLookup, hk, ih]

theorem eraseFirstValue_sublist (r : Nat) :
    ∀ (m : List (String × Nat)), List.Sublist (eraseFirstValue m r) m := by
  intro m
  induction m with
  | nil => exact List.Sublist.refl _
  | cons p rest ih =>
    unfold eraseFirstValue
    split
    · exact List.sublist_cons_self p rest
    · exact List.Sublist.cons₂ p ih

theorem mapLookup_none_keys :
    ∀ (m : List (String × Nat)) (url : String),
      url ∉ m.map Prod.fst → mapLookup m url = none := by
  intro m url
  induction m with
  | nil => intro _; rfl
  | cons p rest ih =>
    intro h
    simp only [List.map_cons, List.mem_cons] at h
    push_neg at h
    unfold mapLookup
    rw [if_neg (fun hh => h.1 hh.symm)]
    exact ih h.2

theorem mapLookup_none_erase :
    ∀ (m : List (String × Nat)) (url : String) (r : Nat),
      mapLookup m url = none → mapLookup (eraseFirstValue m r) url = none := by
  intro m url r
  induction m with
  | nil => intro _; rfl
  | cons p rest ih =>
    intro h
    unfold mapLookup at h
    by_cases hk : p.1 = url
    · rw [if_pos hk] at h; cases h
    · rw [if_neg hk] at h
      unfold eraseFirstValue
      split
      · exact h
      · unfold mapLookup
        rw [if_neg hk]
        exact ih h

/-- Erasing by value removes the url's mapping when that url is the only
key carrying the value and keys are unique. -/
theorem mapLookup_erase_rm :
    ∀ (m : List (String × Nat)) (url : String) (rid : Nat),
      keysNodup m → mapLookup m url = some rid →
      (∀ p ∈ m, p.2 = rid → p.1 = url) →
      mapLookup (eraseFirstValue m rid) url = none := by
  intro m url rid
  induction m with
  | nil => intro _ h; cases h
  | cons p rest ih =>
    intro hnd h hval
    have hnd2 : keysNodup rest := by
      unfold keysNodup at hnd ⊢
      rw [List.map_cons, List.nodup_cons] at hnd
      exact hnd.2
    by_cases hk : p.1 = url
    · have hv : p.2 = rid := by
        unfold mapLookup at h
        rw [if_pos hk] at h
        injection h
      unfold eraseFirstValue
      rw [if_pos hv]
      apply mapLookup_none_keys
      intro hmem
      unfold keysNodup at hnd
      rw [List.map_cons, List.nodup_cons] at hnd
      exact hnd.1 (by rw [hk]; exact hmem)
    · have hv : ¬ p.2 = rid := fun hh => hk (hval p (List.mem_cons_self p rest) hh)
      unfold eraseFirstValue
      rw [if_neg hv]
      unfold mapLookup
      rw [if_neg hk]
      unfold mapLookup at h
      rw [if_neg hk] at h
      exact ih hnd2 h (fun q hq => hval q (List.mem_cons_of_mem p hq))

/-- Erasing a different value leaves the url's mapping intact. -/
theorem mapLookup_erase_keep :
    ∀ (m : List (String × Nat)) (url : String) (rid r : Nat),
      mapLookup m url = some rid → r ≠ rid →
      mapLookup (eraseFirstValue m r) url = some rid := by
  intro m url rid r
  induction m with
  | nil => intro h; cases h
  | cons p rest ih =>
    intro h hne
    by_cases hk : p.1 = url
    · have hv : p.2 = rid := by
        unfold mapLookup at h
        rw [if_pos hk] at h
        injection h
      unfold eraseFirstValue
      rw [if_neg (by rw [hv]; exact fun hh => hne hh.symm)]
      unfold mapLookup
      rw [if_pos hk, hv]
    · unfold mapLookup at h
      rw [if_neg hk] at h
      unfold eraseFirstValue
      split
      · exact h
      · unfold mapLookup
        rw [if_neg hk]
        exact ih h hne

theorem foldl_apply_none :
    ∀ (evs : List UpdateEvent) (d : HttpDownloader) (url : String),
      mapLookup d.activeDownloads url = none →
      mapLookup ((evs.foldl applyDownloaderEvent d).activeDownloads) url = none := by
  intro evs
  induction evs with
  | nil => intro d url h; exact h
  | cons ev rest ih =>
    intro d url h
    have hstep : mapLookup ((applyDownloaderEvent d ev).activeDownloads) url = none := by
      cases ev <;> simp only [applyDownloaderEvent] <;> try exact h
      split
      · exact mapLookup_none_erase _ _ _ h
      · exact h
    exact ih _ _ hstep

/-- Once the `HandleDownloadDone` callback for `rid` is among the fired
events, the downloader's post-update fold removes the url's mapping. -/
theorem foldl_apply_removes :
    ∀ (evs : List UpdateEvent) (d : HttpDownloader) (url : String) (rid : Nat),
      keysNodup d.activeDownloads →
      mapLookup d.activeDownloads url = some rid →
      (∀ p ∈ d.activeDownloads, p.2 = rid → p.1 = url) →
      UpdateEvent.callbackCalled hdlDownloadDoneCb rid ∈ evs →
      mapLookup ((evs.foldl applyDownloaderEvent d).activeDownloads) url = none := by
  intro evs
  induction evs with
  | nil => intro d url rid _ _ _ hmem; cases hmem
  | cons ev rest ih =>
    intro d url rid hnd h hval hmem
    rcases List.mem_cons.mp hmem with heq | hmem2
    · have hstep :
          mapLookup ((applyDownloaderEvent d ev).activeDownloads) url = none := by
        rw [← heq]
        simp only [applyDownloaderEvent, if_pos rfl, HttpDownloader.HandleDownloadDone]
        exact mapLookup_erase_rm _ _ _ hnd h hval
      exact foldl_apply_none rest _ url hstep
    · have hsub : ∀ (d1 : HttpDownloader),
          d1.activeDownloads = d.activeDownloads →
          mapLookup ((rest.foldl applyDownloaderEvent d1).activeDownloads) url = none := by
        intro d1 hd1
        exact ih d1 url rid (hd1 ▸ hnd) (hd1 ▸ h) (hd1 ▸ hval) hmem2
      cases ev with
      | callbackCalled cb r =>
        by_cases hcb : cb = hdlDownloadDoneCb
        · by_cases hr : r = rid
          · subst hr
            have hstep :
                mapLookup ((applyDownloaderEvent d (.callbackCalled cb r)).activeDownloads)
                  url = none := by
              simp only [applyDownloaderEvent, if_pos hcb, HttpDownloader.HandleDownloadDone]
              exact mapLookup_erase_rm _ _ _ hnd h hval
            exact foldl_apply_none rest _ url hstep
          · have hkeep := mapLookup_erase_keep d.activeDownloads url rid r h hr
            have hnd1 : keysNodup (eraseFirstValue d.activeDownloads r) :=
              List.Nodup.sublist (List.Sublist.map Prod.fst
                (eraseFirstValue_sublist r d.activeDownloads)) hnd
            have hval1 : ∀ p ∈ eraseFirstValue d.activeDownloads r, p.2 = rid → p.1 = url :=
              fun p hp => hval p ((eraseFirstValue_sublist r d.activeDownloads).subset hp)
            have heq2 : applyDownloaderEvent d (.callbackCalled cb r)
                = d.HandleDownloadDone r := by
              simp [applyDownloaderEvent, hcb]
            rw [List.foldl_cons, heq2]
            exact ih _ url rid hnd1 hkeep hval1 hmem2
        · have heq2 : applyDownloaderEvent d (.callbackCalled cb r) = d := by
            simp [applyDownloaderEvent, hcb]
          rw [List.foldl_cons, heq2]
          exact hsub d rfl
      | responseHeadersHandled r => exact hsub d rfl
      | handleResponseCalled r su co => exact hsub d rfl
      | assigned wi r => exact hsub d rfl
      | spawnedThread wi => exact hsub d rfl
      | wokeWorker wi => exact hsub d rfl
      | droppedCancelled r => exact hsub d rfl

/-! ## Claim C8 — FetchUnique deduplication -/

/-- Claim C8: (1) `DownloadFile` on a url already mapped returns the
identical in-flight request and changes nothing — no second transfer is
started; (2) on an unmapped url it constructs a fresh `PENDING` request,
queues it with a `HandleDownloadDone` callback and records the mapping —
so after the mapping is removed, a subsequent call constructs and submits
a new request; (3) when the request completes — its worker reaches `DONE`
with ANY transport result, success and failure alike — the next `Update`
fires the `HandleDownloadDone` callback and the url's mapping is removed. -/
theorem C8_fetch_unique
    (d : HttpDownloader) (fs : FileSys) (url dest : String) (rid : Nat)
    (i : Nat) (w : HttpClient_Worker) :
    (mapLookup d.activeDownloads url = some rid →
      d.DownloadFile fs url dest = (rid, d, fs)) ∧
    (mapLookup d.activeDownloads url = none →
      (d.DownloadFile fs url dest).1 = d.nextId ∧
      mapLookup (d.DownloadFile fs url dest).2.1.activeDownloads url = some d.nextId ∧
      (d.DownloadFile fs url dest).2.1.client.pendingRequests
        = d.client.pendingRequests ++ [d.nextId] ∧
      (d.DownloadFile fs url dest).2.1.client.pendingCallbacks
        = d.client.pendingCallbacks ++ [(d.nextId, hdlDownloadDoneCb)] ∧
      ((d.DownloadFile fs url dest).2.1.client.requests d.nextId).status = .PENDING) ∧
    (d.client.workers[i]? = some w → w.status = .DONE → w.pRequest = some rid →
      (∀ j wj, d.client.workers[j]? = some wj → wj.pRequest = some rid → j = i) →
      (rid, hdlDownloadDoneCb) ∈ d.client.pendingCallbacks →
      keysNodup d.activeDownloads →
      mapLookup d.activeDownloads url = some rid →
      (∀ p ∈ d.activeDownloads, p.2 = rid → p.1 = url) →
      UpdateEvent.callbackCalled hdlDownloadDoneCb rid ∈ (d.Update).2 ∧
      mapLookup (d.Update).1.activeDownloads url = none) := by
  refine ⟨?_, ?_, ?_⟩
  · intro h
    simp [HttpDownloader.DownloadFile, h]
  · intro h
    have hdf : d.DownloadFile fs url dest =
        (let dl := (HttpDownload.init fs url dest).1
         let fs1 := (HttpDownload.init fs url dest).2
         let rid0 := d.nextId
         let client0 := { d.client with
           requests := updateReq d.client.requests rid0 (fun _ => dl.base) }
         let client1 :=
           ((client0.QueueRequest rid0 (some hdlDownloadDoneCb)).map Prod.fst).getD client0
         (rid0,
          { client := client1,
            activeDownloads := mapInsert d.activeDownloads url rid0,
            nextId := d.nextId + 1 },
          fs1)) := by
      unfold HttpDownloader.DownloadFile
      rw [h]
    refine ⟨?_, ?_, ?_, ?_, ?_⟩ <;>
      simp [hdf, init_fst, HttpClient.QueueRequest, updateReq,
        HttpRequest.CompileRequest, mapLookup_insert_self]
  · intro hw hst hreq huniq hcb hnd hmap hval
    have hmain := runPhase1_done_facts d.client.workers 0
      ⟨d.client.requests, d.client.pendingCallbacks, [], none⟩ i w rid hw hst hreq huniq
    have hev : UpdateEvent.callbackCalled hdlDownloadDoneCb rid ∈ (d.client.Update).2 :=
      update_events_sup d.client _ (hmain.2.2 hdlDownloadDoneCb hcb)
    refine ⟨hev, ?_⟩
    show mapLookup (((d.client.Update).2.foldl applyDownloaderEvent
      { d with client := (d.client.Update).1 }).activeDownloads) url = none
    exact foldl_apply_removes (d.client.Update).2
      { d with client := (d.client.Update).1 } url rid hnd hmap hval hev

/-- Witness for C8: a downloader whose single download (request 5,
keyed by url `u`) has just FAILED with a 404 — the callback still fires
and the mapping is removed; a repeated `DownloadFile` before completion
returns the identical request; a fresh key constructs a new one. -/
theorem C8_fetch_unique_witness :
    (HttpDownloader.DownloadFile
        ⟨⟨[], [], [], fun _ => reqPENDING⟩, [("u", 5)], 6⟩ fsEmpty "u" "d/f"
      = (5, ⟨⟨[], [], [], fun _ => reqPENDING⟩, [("u", 5)], 6⟩, fsEmpty)) ∧
    (UpdateEvent.callbackCalled hdlDownloadDoneCb 5 ∈
      (HttpDownloader.Update
        ⟨⟨[{ status := .DONE, pRequest := some 5, cancelAndQuit := false,
             responseHeadersDone := true, pResponseHeaders := [], result := 0,
             responseStatusCode := 404 }], [], [(5, hdlDownloadDoneCb)],
           fun _ => { method := .GET, url := "u", status := .SENDING,
                      requestHeaders := [], responseHeaders := [] }⟩,
          [("u", 5)], 6⟩).2) ∧
    mapLookup (HttpDownloader.Update
        ⟨⟨[{ status := .DONE, pRequest := some 5, cancelAndQuit := false,
             responseHeadersDone := true, pResponseHeaders := [], result := 0,
             responseStatusCode := 404 }], [], [(5, hdlDownloadDoneCb)],
           fun _ => { method := .GET, url := "u", status := .SENDING,
                      requestHeaders := [], responseHeaders := [] }⟩,
          [("u", 5)], 6⟩).1.activeDownloads "u" = none := by
  have h1 := (C8_fetch_unique
    ⟨⟨[], [], [], fun _ => reqPENDING⟩, [("u", 5)], 6⟩ fsEmpty "u" "d/f" 5 0
    HttpClient_Worker.init).1 rfl
  have h3 := (C8_fetch_unique
    ⟨⟨[{ status := .DONE, pRequest := some 5, cancelAndQuit := false,
         responseHeadersDone := true, pResponseHeaders := [], result := 0,
         responseStatusCode := 404 }], [], [(5, hdlDownloadDoneCb)],
       fun _ => { method := .GET, url := "u", status := .SENDING,
                  requestHeaders := [], responseHeaders := [] }⟩,
      [("u", 5)], 6⟩ fsEmpty "u" "d/f" 5 0
    { status := .DONE, pRequest := some 5, cancelAndQuit := false,
      responseHeadersDone := true, pResponseHeaders := [], result := 0,
      responseStatusCode := 404 }).2.2 rfl rfl rfl
    (by
      intro j wj hj hpr
      match j with
      | 0 => rfl
      | n + 1 => simp at hj)
    (by simp) (by simp [keysNodup]) rfl
    (by intro p hp h2; simp at hp; rw [hp])
  exact ⟨h1, h3.1, h3.2⟩

end HttpUtils
